import Mathlib

/-!
# Blinder core — shallow embedding and verification

This file embeds the Blinder core (pseudonym vault, threat sanitiser,
depseudonymiser, entity mapper, encryption wrapper and tabular query
engine) from `backend/` into Lean 4 and proves or refutes the frozen
specification claims about it.

Python strings are modelled as `String` / `List Char` (a Python `str` is a
sequence of Unicode code points).  Python `dict`s are modelled as
insertion-ordered association lists in which an update keeps the original
position of the key, exactly as CPython dictionaries behave.
-/

namespace Blinder

/-- Insertion-ordered dictionary lookup (`d.get(k)` / `d[k]`). -/
def dGet {β : Type} : List (String × β) → String → Option β
  | [], _ => none
  | p :: rest, k => if p.1 = k then some p.2 else dGet rest k

/-- Insertion-ordered dictionary update (`d[k] = v`): an existing key
keeps its position (keys are unique in every dictionary the source
builds), a new key is appended, as in CPython. -/
def dSet {β : Type} : List (String × β) → String → β → List (String × β)
  | [], k, v => [(k, v)]
  | p :: rest, k, v =>
    if p.1 = k then (k, v) :: rest else p :: dSet rest k v

/-- Decimal digit to character. -/
def digitChar (d : Nat) : Char := Char.ofNat (48 + d)

/-- Auxiliary decimal printer accumulating least-significant digits first.
The first argument is fuel (any bound on the number of digits works; the
callers pass the number itself). -/
def natReprAux : Nat → Nat → List Char → List Char
  | 0, _, acc => acc
  | fuel + 1, n, acc =>
    if n = 0 then acc
    else natReprAux fuel (n / 10) (digitChar (n % 10) :: acc)

/-- Decimal rendering of a natural number, as Python's `str`/f-string
formatting of a nonnegative `int`. -/
def natRepr (n : Nat) : String :=
  if n = 0 then "0" else ⟨natReprAux n n []⟩

/-! ## Vault (`backend/blinder/vault.py`) -/

/-- `VaultEntry` — a single vault record mapping a real value to its
pseudonym (`vault.py`, `@dataclass VaultEntry`). -/
structure VaultEntry where
  entity_type : String
  pseudonym : String
  real_value : String
  aliases : List String := []
deriving Repr, DecidableEq

/-- The in-memory state of a `Vault` (`vault.py`, class `Vault`): the
bidirectional maps, the entry map and the per-type counters.  The session
salt and encryption key are byte strings, modelled as lists of byte
values. -/
structure Vault where
  session_salt : List Nat
  encryption_key : List Nat
  forward : List (String × String)
  reverse : List (String × String)
  entries : List (String × VaultEntry)
  counters : List (String × Nat)
deriving Repr, DecidableEq

/-- `Vault.__init__`: fresh vault with empty maps. -/
def Vault.new (session_salt encryption_key : List Nat) : Vault :=
  { session_salt := session_salt
    encryption_key := encryption_key
    forward := []
    reverse := []
    entries := []
    counters := [] }

/-- The pseudonym f-string `f"[{entity_type}_{counter}]"`. -/
def mkPseudonym (entity_type : String) (counter : Nat) : String :=
  "[" ++ entity_type ++ "_" ++ natRepr counter ++ "]"

/-- `Vault.add_entity`: register `real_value` and return its pseudonym.
If the real value is already in the forward map the existing pseudonym is
returned and the state is untouched; otherwise the counter for
`entity_type` is incremented and `[TYPE_N]` is installed in both maps and
the entry map. -/
def Vault.add_entity (v : Vault) (real_value entity_type : String) :
    String × Vault :=
  match dGet v.forward real_value with
  | some p => (p, v)
  | none =>
    let counter := (dGet v.counters entity_type).getD 0 + 1
    let pseudonym := mkPseudonym entity_type counter
    (pseudonym,
      { v with
        counters := dSet v.counters entity_type counter
        forward := dSet v.forward real_value pseudonym
        reverse := dSet v.reverse pseudonym real_value
        entries := dSet v.entries pseudonym
          { entity_type := entity_type
            pseudonym := pseudonym
            real_value := real_value
            aliases := [] } })

/-- `Vault.get_pseudonym`. -/
def Vault.get_pseudonym (v : Vault) (real_value : String) : Option String :=
  dGet v.forward real_value

/-- `Vault.get_real_value`. -/
def Vault.get_real_value (v : Vault) (pseudonym : String) : Option String :=
  dGet v.reverse pseudonym

/-- `Vault.add_alias`: `none` models the `KeyError` raised on an unknown
pseudonym; otherwise the alias is appended to the entry (idempotently) and
wired into the forward map. -/
def Vault.add_alias (v : Vault) (pseudonym aliasName : String) : Option Vault :=
  match dGet v.entries pseudonym with
  | none => none
  | some entry =>
    let entry' :=
      if aliasName ∈ entry.aliases then entry
      else { entry with aliases := entry.aliases ++ [aliasName] }
    some { v with
      entries := dSet v.entries pseudonym entry'
      forward := dSet v.forward aliasName pseudonym }

/-- `Vault.get_all_entries`: `list(self._entries.values())`. -/
def Vault.get_all_entries (v : Vault) : List VaultEntry :=
  v.entries.map (·.2)

/-! ## Python string helpers

These model the CPython `str` methods used by the source, over ASCII (and
the specific non-ASCII code points appearing in the sanitiser); the
sources never exercise the exotic Unicode corners of `int()` / `isdigit()`
(non-ASCII decimal digits), which are outside the modelled repertoire. -/

/-- The apostrophe code point, used to build possessive forms. -/
def apos : Char := Char.ofNat 39

/-- The regex class `\d` / `str.isdigit` on ASCII: code points 48–57. -/
def isDigitChar (c : Char) : Bool := 48 ≤ c.toNat ∧ c.toNat ≤ 57

/-- `str.strip(chars)` over an explicit character set: drop members of the
set from both ends. -/
def pyStripChars (set : List Char) (s : List Char) : List Char :=
  ((s.dropWhile (· ∈ set)).reverse.dropWhile (· ∈ set)).reverse

/-- `str.rsplit(sep, 1)` for a single-character separator: split at the
last occurrence, `none` when the separator is absent. -/
def rsplitOnce (sep : Char) (s : List Char) : Option (List Char × List Char) :=
  let (revAfter, revRest) := s.reverse.span (· ≠ sep)
  match revRest with
  | [] => none
  | _ :: revBefore => some (revBefore.reverse, revAfter.reverse)

/-- ASCII whitespace recognised by `int()` / `str.strip()`. -/
def isPyWs (c : Char) : Bool :=
  c = ' ' ∨ c.toNat = 9 ∨ c.toNat = 10 ∨ c.toNat = 13 ∨ c.toNat = 11 ∨ c.toNat = 12

/-- Python `int(s)` restricted to ASCII: strip whitespace, optional sign,
then a nonempty digit run; `none` models `ValueError`. -/
def pyIntStrip (s : List Char) : List Char :=
  ((s.dropWhile isPyWs).reverse.dropWhile isPyWs).reverse

/-- The optional sign of `int()`. -/
def pyIntSign : List Char → Bool × List Char
  | [] => (false, [])
  | c :: rest =>
    if c = '-' then (true, rest)
    else if c = '+' then (false, rest)
    else (false, c :: rest)

/-- Numeric value of a digit run (the accumulation `int()` performs). -/
def digitsVal (d : List Char) : Nat :=
  d.foldl (fun a c => 10 * a + (c.toNat - 48)) 0

def pyInt (s : List Char) : Option Int :=
  let p := pyIntSign (pyIntStrip s)
  if p.2 ≠ [] ∧ p.2.all isDigitChar then
    some (if p.1 then -(digitsVal p.2 : Int) else (digitsVal p.2 : Int))
  else none

/-- Auxiliary for `str.replace`: fuel-driven scan (fuel = length of the
text suffices; an empty search pattern is never passed by the source). -/
def pyReplaceAux : Nat → List Char → List Char → List Char → List Char
  | 0, s, _, _ => s
  | fuel + 1, s, t, r =>
    match s with
    | [] => []
    | c :: rest =>
      if t ≠ [] ∧ t.isPrefixOf s then r ++ pyReplaceAux fuel (s.drop t.length) t r
      else c :: pyReplaceAux fuel rest t r

/-- `str.replace(target, repl)` — replaces every occurrence, left to
right. -/
def pyReplace (s t r : String) : String :=
  ⟨pyReplaceAux s.data.length s.data t.data r.data⟩

/-- The parsing step of `Vault.load_entries`:
`pseudonym.strip("[]").rsplit("_", 1)` followed by `int(num_str)`.
Returns the entity type together with the parsed number;
`none` distinguishes "no underscore" (`.inl`-like: skip only the counter
update) from "int() raised" via the outer option in `load_entries`. -/
def parsePseudonymCounter (p : String) : Option (String × Option Int) :=
  let inner := pyStripChars ['[', ']'] p.data
  match rsplitOnce '_' inner with
  | none => none
  | some (before, after) => some (⟨before⟩, pyInt after)

/-- One iteration of the `Vault.load_entries` loop: install both map
directions and the entry, update the per-type counter to the parsed `N`
when larger, and re-register aliases.  As in the source, a failing `int()`
triggers `continue`, which also skips the alias re-registration of that
entry. -/
def loadStep (v : Vault) (e : VaultEntry) : Vault :=
  let v1 := { v with
    forward := dSet v.forward e.real_value e.pseudonym
    reverse := dSet v.reverse e.pseudonym e.real_value
    entries := dSet v.entries e.pseudonym e }
  let withAliases := fun (w : Vault) =>
    { w with forward :=
        e.aliases.foldl (fun f a => dSet f a e.pseudonym) w.forward }
  match parsePseudonymCounter e.pseudonym with
  | none => withAliases v1
  | some (_, none) => v1
  | some (t, some n) =>
    let cur : Int := ((dGet v1.counters t).getD 0 : Nat)
    if n > cur then
      withAliases { v1 with counters := dSet v1.counters t n.toNat }
    else withAliases v1

/-- `Vault.load_entries`: bulk-load entries on session restore. -/
def Vault.load_entries (v : Vault) (entries : List VaultEntry) : Vault :=
  entries.foldl loadStep v

/-- A usable entity-type string: nonempty and not starting with a
bracket (every type of the pseudonym grammar `[A-Z][A-Z0-9_]*` is one). -/
def goodTypeB (T : String) : Bool :=
  match T.data with
  | [] => false
  | c :: _ => c ≠ '[' ∧ c ≠ ']'

/-- The maximum `N` among loaded pseudonyms of a given type, given the
decomposition `W` of each entry's pseudonym as `[TYPE_N]` (the claim's
"maximum N observed"), folded from `a`. -/
def maxLoadedNFrom (T : String) (W : VaultEntry → String × Nat) (a : Nat)
    (entries : List VaultEntry) : Nat :=
  entries.foldl (fun a e => if (W e).1 = T then max a (W e).2 else a) a

/-- The same maximum computed through the parser of `load_entries`,
folded from `a`. -/
def maxParsedFrom (T : String) (a : Nat) (entries : List VaultEntry) : Nat :=
  entries.foldl
    (fun a e =>
      match parsePseudonymCounter e.pseudonym with
      | some (t, some n) => if t = T then max a n.toNat else a
      | _ => a) a

/-! ## Depseudonymiser (`backend/blinder/depseudonymizer.py`) -/

/-- Character class `[A-Z_]` of the pseudonym regex. -/
def isUpperOrUnderscore (c : Char) : Bool :=
  (65 ≤ c.toNat ∧ c.toNat ≤ 90) ∨ c = '_'

/-- Try to match the regex `\[([A-Z_]+_\d+)\]` at the head of the input;
on success return the group text and the remaining input.  Because digits
are not in `[A-Z_]`, the greedy run of `[A-Z_]` must end with the literal
underscore, so the match succeeds exactly when the maximal `[A-Z_]` run
after `[` has length at least 2 and ends with `_`, followed by a nonempty
digit run and `]`. -/
def matchPseudonymAt : List Char → Option (List Char × List Char)
  | '[' :: rest =>
    let (u, rest1) := rest.span isUpperOrUnderscore
    if 2 ≤ u.length ∧ u.getLast? = some '_' then
      match rest1.span isDigitChar with
      | ([], _) => none
      | (d, rest2) =>
        match rest2 with
        | ']' :: rest3 => some (u ++ d, rest3)
        | _ => none
    else none
  | _ => none

/-- `re.findall` for the pseudonym regex: scan left to right, restarting
after each match (fuel = text length). -/
def findPseudonymsAux : Nat → List Char → List (List Char)
  | 0, _ => []
  | _, [] => []
  | fuel + 1, s =>
    match matchPseudonymAt s with
    | some (g, rest) => g :: findPseudonymsAux fuel rest
    | none => findPseudonymsAux fuel s.tail

/-- All pseudonym groups found in a text, in order of occurrence. -/
def findPseudonyms (s : List Char) : List (List Char) :=
  findPseudonymsAux s.length s

/-- Stable insertion preserving earlier elements on key ties (descending
keys). -/
def insertDescBy {α : Type} (key : α → Nat) (x : α) : List α → List α
  | [] => [x]
  | y :: ys => if key y < key x then x :: y :: ys else y :: insertDescBy key x ys

/-- Stable sort by key, descending — the model of
`sorted(..., key=len, reverse=True)`.  CPython's `set` iteration order is
hash-dependent; the model resolves it to first-occurrence order, which only
matters for groups of equal length (the verified inputs have none). -/
def sortDescBy {α : Type} (key : α → Nat) (l : List α) : List α :=
  l.foldl (fun acc x => insertDescBy key x acc) []

/-- The friendly-name table of `_humanize_pseudonym`. -/
def friendlyTable : List (String × String) :=
  [("PROF", "the professor"), ("PROFESSOR", "the professor"),
   ("ARTICLE", "the article"), ("PAPER", "the paper"),
   ("STUDY", "the study"), ("REPORT", "the report"),
   ("AUTHOR", "the author"), ("RESEARCHER", "the researcher"),
   ("DOCTOR", "the doctor"), ("COMPANY", "the company"),
   ("PARTY", "the party"), ("CLIENT", "the client"),
   ("WITNESS", "the witness"), ("JUDGE", "the judge"),
   ("DEFENDANT", "the defendant"), ("PLAINTIFF", "the plaintiff")]

/-- `_humanize_pseudonym`: strip brackets, split off the trailing counter,
and map known hallucinated types to natural language. -/
def humanizePseudonym (pseudonym : String) : String :=
  let inner : List Char := pyStripChars ['[', ']'] pseudonym.data
  match rsplitOnce '_' inner with
  | none => ⟨inner⟩
  | some (before, after) =>
    if after ≠ [] ∧ after.all isDigitChar then
      (dGet friendlyTable ⟨before⟩).getD ⟨inner⟩
    else ⟨inner⟩

/-- Replace both the possessive and the plain form of a token. -/
def replaceBoth (result : String) (token value : String) : String :=
  pyReplace (pyReplace result (token ++ ⟨[apos, 's']⟩) (value ++ ⟨[apos, 's']⟩))
    token value

/-- `Depseudonymizer.restore`: find all pseudonym tokens, deduplicate,
sort by length descending, replace vault-resolved tokens (possessive form
first), then humanise the unresolved ones. -/
def Depseudonymizer.restore (vault : Vault) (text : String) : String :=
  let found := findPseudonyms text.data
  if found = [] then text
  else
    let uniques := sortDescBy List.length (found.eraseDups)
    let (result, unresolved) :=
      uniques.foldl
        (fun (acc : String × List String) raw =>
          let bracketed : String := "[" ++ ⟨raw⟩ ++ "]"
          match vault.get_real_value bracketed with
          | none => (acc.1, acc.2 ++ [bracketed])
          | some rv => (replaceBoth acc.1 bracketed rv, acc.2))
        (text, [])
    unresolved.foldl
      (fun res bracketed => replaceBoth res bracketed (humanizePseudonym bracketed))
      result

/-! ## Threat sanitiser (`backend/blinder/threat_sanitizer.py`)

Texts are sequences of Unicode code points (`List Char`). -/

/-- `ThreatDetail` — description of a single detected threat. -/
structure ThreatDetail where
  threat_type : String
  description : String
  severity : String
  matched_pattern : String
deriving Repr, DecidableEq

/-- `SanitizeResult` — result of the full sanitisation pipeline. -/
structure SanitizeResult where
  is_safe : Bool
  threats : List ThreatDetail
  cleaned_text : String
deriving Repr, DecidableEq

/-! ### NFKC model

Modelled from the spec: "NFKC-normalise input" is performed by
`unicodedata.normalize("NFKC", ...)`, a library function that is not part
of this repository.  The normalisation algorithm (full compatibility
decomposition, canonical ordering, canonical composition with blocking) is
implemented below in full; its character data tables are restricted to a
finite repertoire that contains every code point exercised by the theorems
of this file.  A code point outside the tables decomposes to itself,
carries combining class 0 and takes part in no composition — which is true
of all code points appearing in the verified inputs. -/

/-- Canonical combining classes of the modelled repertoire
(U+0301 COMBINING ACUTE ACCENT has class 230; every other modelled code
point is a starter). -/
def cccTable : List (Nat × Nat) := [(0x301, 230), (0x300, 230)]

/-- Combining class of a character. -/
def ccc (c : Char) : Nat :=
  ((cccTable.find? (fun p => p.1 = c.toNat)).map (·.2)).getD 0

/-- Full (compatibility) decompositions of the modelled repertoire, already
recursively expanded. -/
def decompTable : List (Nat × List Nat) :=
  [(0xE1, [0x61, 0x301]),   -- LATIN SMALL LETTER A WITH ACUTE
   (0xE0, [0x61, 0x300]),   -- LATIN SMALL LETTER A WITH GRAVE
   (0xFF21, [0x41])]        -- FULLWIDTH LATIN CAPITAL LETTER A

/-- Decomposition step: a character maps to its full decomposition, or to
itself. -/
def decompChar (c : Char) : List Char :=
  match decompTable.find? (fun p => p.1 = c.toNat) with
  | some p => p.2.map Char.ofNat
  | none => [c]

/-- Primary canonical composites of the modelled repertoire. -/
def compTable : List ((Nat × Nat) × Nat) :=
  [((0x61, 0x301), 0xE1), ((0x61, 0x300), 0xE0)]

/-- Canonical composition of a pair, when a primary composite exists. -/
def composePair (a b : Char) : Option Char :=
  ((compTable.find? (fun p => p.1.1 = a.toNat ∧ p.1.2 = b.toNat)).map
    (fun p => Char.ofNat p.2))

/-- Stable ascending insertion of a combining mark by combining class. -/
def insertMark (c : Char) : List Char → List Char
  | [] => [c]
  | d :: ds => if ccc c < ccc d then c :: d :: ds else d :: insertMark c ds

/-- Stable sort of a run of combining marks by combining class. -/
def sortMarks (run : List Char) : List Char :=
  run.foldl (fun acc c => insertMark c acc) []

/-- Canonical ordering: stable-sort every maximal run of nonzero-class
characters by combining class (fuel = list length suffices). -/
def canonicalOrderAux : Nat → List Char → List Char
  | 0, l => l
  | fuel + 1, l =>
    match l with
    | [] => []
    | c :: rest =>
      if ccc c = 0 then c :: canonicalOrderAux fuel rest
      else
        let (run, rest2) := rest.span (fun d => ccc d ≠ 0)
        sortMarks (c :: run) ++ canonicalOrderAux fuel rest2

/-- Canonical ordering of a sequence. -/
def canonicalOrder (l : List Char) : List Char :=
  canonicalOrderAux l.length l

/-- Canonical composition (UAX #15): walk the canonically ordered sequence
keeping the last starter and the still-pending combining marks (most
recent first); a character composes with the last starter when no
intervening character blocks it. -/
def composeAux : Nat → Char → List Char → List Char → List Char
  | 0, st, pend, l => st :: pend.reverse ++ l
  | _ + 1, st, pend, [] => st :: pend.reverse
  | fuel + 1, st, pend, c :: rest =>
    if ccc c = 0 then
      match pend, composePair st c with
      | [], some m => composeAux fuel m [] rest
      | _, _ => st :: pend.reverse ++ composeAux fuel c [] rest
    else
      let blocked := match pend with
        | [] => false
        | p :: _ => ccc c ≤ ccc p
      if blocked then composeAux fuel st (c :: pend) rest
      else
        match composePair st c with
        | some m => composeAux fuel m pend rest
        | none => composeAux fuel st (c :: pend) rest

/-- Canonical composition of a canonically ordered sequence. -/
def canonicalCompose : List Char → List Char
  | [] => []
  | c :: rest => composeAux rest.length c [] rest

/-- The NFKC model: compatibility decomposition, canonical ordering,
canonical composition. -/
def nfkc (l : List Char) : List Char :=
  canonicalCompose (canonicalOrder (l.flatMap decompChar))

/-! ### Unicode threat stripping -/

/-- `_INVISIBLE_CHARS`: zero-width characters and the BOM. -/
def invisibleChars : List Nat := [0x200B, 0x200C, 0x200D, 0xFEFF]

/-- `_BIDI_RANGE`: U+202A..U+202E and U+2066..U+2069. -/
def inBidiRange (n : Nat) : Bool :=
  (0x202A ≤ n ∧ n ≤ 0x202E) ∨ (0x2066 ≤ n ∧ n ≤ 0x2069)

/-- `_TAG_RANGE`: U+E0001..U+E007F. -/
def inTagRange (n : Nat) : Bool :=
  0xE0001 ≤ n ∧ n ≤ 0xE007F

/-- The code points of Unicode general category `Cf`, as range pairs
(the category table of the `unicodedata` module backing the source). -/
def cfRanges : List (Nat × Nat) :=
  [(0xAD, 0xAD), (0x600, 0x605), (0x61C, 0x61C), (0x6DD, 0x6DD),
   (0x70F, 0x70F), (0x890, 0x891), (0x8E2, 0x8E2), (0x180E, 0x180E),
   (0x200B, 0x200F), (0x202A, 0x202E), (0x2060, 0x2064), (0x2066, 0x206F),
   (0xFEFF, 0xFEFF), (0xFFF9, 0xFFFB), (0x110BD, 0x110BD),
   (0x110CD, 0x110CD), (0x13430, 0x13438), (0x1BCA0, 0x1BCA3),
   (0x1D173, 0x1D17A), (0xE0001, 0xE0001), (0xE0020, 0xE007F)]

/-- Category test `unicodedata.category(ch) == "Cf"`. -/
def isCf (c : Char) : Bool :=
  cfRanges.any (fun r => r.1 ≤ c.toNat ∧ c.toNat ≤ r.2)

/-- The per-character removal test of `_strip_unicode_threats`, in the
source's order: invisible set, bidi range, tag range, then general
category `Cf` minus the kept soft hyphen U+00AD. -/
def isStrippedChar (c : Char) : Bool :=
  c.toNat ∈ invisibleChars ∨ inBidiRange c.toNat ∨ inTagRange c.toNat ∨
    (isCf c ∧ c.toNat ≠ 0xAD)

/-- `ThreatSanitizer._strip_unicode_threats`: NFKC-normalise, then remove
dangerous invisible characters. -/
def stripUnicodeThreats (text : List Char) : List Char :=
  (nfkc text).filter (fun c => ¬ isStrippedChar c)

/-! ### Homoglyph detection -/

/-- `_HOMOGLYPHS`: (latin char, look-alike, script name) rows, in source
order. -/
def homoglyphTable : List (Char × Char × String) :=
  [('a', Char.ofNat 0x430, "Cyrillic"), ('c', Char.ofNat 0x441, "Cyrillic"),
   ('e', Char.ofNat 0x435, "Cyrillic"), ('o', Char.ofNat 0x43E, "Cyrillic"),
   ('p', Char.ofNat 0x440, "Cyrillic"), ('x', Char.ofNat 0x445, "Cyrillic"),
   ('y', Char.ofNat 0x443, "Cyrillic"), ('s', Char.ofNat 0x455, "Cyrillic"),
   ('i', Char.ofNat 0x456, "Cyrillic"), ('A', Char.ofNat 0x410, "Cyrillic"),
   ('B', Char.ofNat 0x412, "Cyrillic"), ('C', Char.ofNat 0x421, "Cyrillic"),
   ('E', Char.ofNat 0x415, "Cyrillic"), ('H', Char.ofNat 0x41D, "Cyrillic"),
   ('K', Char.ofNat 0x41A, "Cyrillic"), ('M', Char.ofNat 0x41C, "Cyrillic"),
   ('O', Char.ofNat 0x41E, "Cyrillic"), ('P', Char.ofNat 0x420, "Cyrillic"),
   ('T', Char.ofNat 0x422, "Cyrillic"), ('X', Char.ofNat 0x425, "Cyrillic"),
   ('o', Char.ofNat 0x3BF, "Greek"), ('v', Char.ofNat 0x3BD, "Greek")]

/-- Hexadecimal digit (uppercase). -/
def hexDigitChar (d : Nat) : Char :=
  if d < 10 then digitChar d else Char.ofNat (55 + d)

/-- Python `f"{n:04X}"` for the code points of the homoglyph table (all
below 0x10000). -/
def natHex4 (n : Nat) : String :=
  ⟨[hexDigitChar (n / 4096 % 16), hexDigitChar (n / 256 % 16),
    hexDigitChar (n / 16 % 16), hexDigitChar (n % 16)]⟩

/-- The regex `[a-zA-Z]` of `_detect_homoglyphs`. -/
def isAsciiLetter (c : Char) : Bool :=
  (97 ≤ c.toNat ∧ c.toNat ≤ 122) ∨ (65 ≤ c.toNat ∧ c.toNat ≤ 90)

/-- The description string of a homoglyph threat. -/
def homoglyphDescription (latin lookalike : Char) (script : String) : String :=
  script ++ " character U+" ++ natHex4 lookalike.toNat ++
    " resembling Latin " ++ ⟨[apos, latin, apos]⟩ ++ " found in text"

/-- The loop body of `_detect_homoglyphs`: accumulate one medium-severity
threat per distinct look-alike found (`seen` in the second component). -/
def homoglyphStep (text : List Char) (acc : List ThreatDetail × List Char)
    (row : Char × Char × String) : List ThreatDetail × List Char :=
  if row.2.1 ∈ text ∧ row.2.1 ∉ acc.2 then
    (acc.1 ++
      [{ threat_type := "homoglyph"
         description := homoglyphDescription row.1 row.2.1 row.2.2
         severity := "medium"
         matched_pattern := row.2.1.toString }],
     acc.2 ++ [row.2.1])
  else acc

/-- `ThreatSanitizer._detect_homoglyphs`: when Latin letters are present,
one medium-severity threat per distinct look-alike found, in table
order. -/
def detectHomoglyphs (text : List Char) : List ThreatDetail :=
  if ¬ text.any isAsciiLetter then []
  else (homoglyphTable.foldl (homoglyphStep text) ([], [])).1

/-! ### Injection pattern detection

A small regex engine sufficient for the constructs appearing in
`_INJECTION_PATTERNS` (case-folded literals, `\s+`, greedy `(...)?` and
`\b`).  A matcher maps an input suffix to the list of possible remainders
after a match, in greedy preference order, so the first remainder accepted
is the one CPython's backtracking engine commits to. -/

/-- Python regex `\s` restricted to ASCII whitespace (the verified inputs
contain no non-ASCII whitespace). -/
def isRegexWs (c : Char) : Bool :=
  c = ' ' ∨ c.toNat = 9 ∨ c.toNat = 10 ∨ c.toNat = 13 ∨ c.toNat = 11 ∨ c.toNat = 12

/-- Python regex `\w` restricted to ASCII (letters, digits, underscore). -/
def isWordChar (c : Char) : Bool :=
  isAsciiLetter c ∨ isDigitChar c ∨ c = '_'

/-- ASCII case folding used by `re.IGNORECASE` on the all-ASCII patterns. -/
def foldAscii (c : Char) : Char :=
  if 65 ≤ c.toNat ∧ c.toNat ≤ 90 then Char.ofNat (c.toNat + 32) else c

/-- A matcher: input suffix to possible remainders (greedy order). -/
def Matcher : Type := List Char → List (List Char)

/-- Literal token, optionally case-insensitive. -/
def mLit (lit : String) (ci : Bool) : Matcher := fun s =>
  let pat := if ci then lit.data.map foldAscii else lit.data
  let hd := s.take pat.length
  if (if ci then hd.map foldAscii else hd) = pat ∧ pat.length ≤ s.length then
    [s.drop pat.length]
  else []

/-- `\s+`: one or more whitespace characters, longest first. -/
def mWs1 : Matcher := fun s =>
  let w := s.takeWhile isRegexWs
  (List.range w.length).map (fun i => s.drop (w.length - i))

/-- Sequencing. -/
def mSeq (m1 m2 : Matcher) : Matcher := fun s => (m1 s).flatMap m2

/-- Greedy option `(...)?`. -/
def mOpt (m : Matcher) : Matcher := fun s => m s ++ [s]

/-- One injection pattern: its matcher plus the `\b` anchors at the two
ends (all anchored pattern edges are word characters, so each anchor means
"adjacent to the string edge or to a non-word character"). -/
structure InjPattern where
  matcher : Matcher
  startB : Bool := false
  endB : Bool := false
  severity : String
  description : String

/-- First accepted match starting at the current suffix, given the
character preceding it. -/
def firstAccepted (p : InjPattern) (prev : Option Char) (s : List Char) :
    Option (List Char) :=
  if p.startB && (match prev with | some c => isWordChar c | none => false) then
    none
  else
    ((p.matcher s).filter
      (fun r => !p.endB || (match r with | [] => true | c :: _ => !isWordChar c))).head?.map
      (fun r => s.take (s.length - r.length))

/-- `re.search`: leftmost match; returns the matched substring
(`match.group()`). -/
def searchFrom (p : InjPattern) : Option Char → List Char → Option (List Char)
  | prev, s =>
    match firstAccepted p prev s with
    | some m => some m
    | none =>
      match s with
      | [] => none
      | c :: rest => searchFrom p (some c) rest

/-- Search over a whole text. -/
def searchPattern (p : InjPattern) (text : List Char) : Option (List Char) :=
  searchFrom p none text

/-- The last row of `_INJECTION_PATTERNS`: the case-sensitive standalone
`\bDAN\b` reference, severity medium. -/
def danPattern : InjPattern :=
  { matcher := mLit "DAN" false
    startB := true, endB := true
    severity := "medium", description := "Possible DAN jailbreak reference" }

/-- `_INJECTION_PATTERNS`, in source order. -/
def injectionPatterns : List InjPattern :=
  [ { matcher := mSeq (mLit "ignore" true) (mSeq mWs1 (mSeq
        (mOpt (mSeq (mLit "all" true) mWs1)) (mSeq (mLit "previous" true)
          (mSeq mWs1 (mLit "instructions" true)))))
      severity := "high", description := "Attempt to override system instructions" },
    { matcher := mSeq (mLit "ignore" true) (mSeq mWs1 (mSeq (mLit "all" true)
        (mSeq mWs1 (mLit "prior" true))))
      severity := "high", description := "Attempt to override prior instructions" },
    { matcher := mSeq (mLit "disregard" true) (mSeq mWs1 (mSeq
        (mOpt (mSeq (mLit "all" true) mWs1)) (mSeq
          (mOpt (mSeq (mLit "the" true) mWs1)) (mLit "above" true))))
      severity := "high", description := "Attempt to disregard above context" },
    { matcher := mSeq (mLit "repeat" true) (mSeq mWs1 (mSeq (mLit "your" true)
        (mSeq mWs1 (mSeq (mLit "system" true) (mSeq mWs1 (mLit "prompt" true))))))
      severity := "high", description := "Attempt to extract system prompt" },
    { matcher := mSeq (mLit "what" true) (mSeq mWs1 (mSeq (mLit "are" true)
        (mSeq mWs1 (mSeq (mLit "your" true) (mSeq mWs1 (mLit "instructions" true))))))
      severity := "high", description := "Attempt to extract system instructions" },
    { matcher := mSeq (mLit "print" true) (mSeq mWs1 (mSeq (mLit "your" true)
        (mSeq mWs1 (mLit "prompt" true))))
      severity := "high", description := "Attempt to extract prompt" },
    { matcher := mSeq (mLit "you" true) (mSeq mWs1 (mSeq (mLit "are" true)
        (mSeq mWs1 (mLit "now" true))))
      endB := true
      severity := "medium", description := "Persona override attempt" },
    { matcher := mSeq (mLit "act" true) (mSeq mWs1 (mSeq (mLit "as" true)
        (mSeq mWs1 (mLit "if" true))))
      severity := "medium", description := "Persona override attempt" },
    { matcher := mSeq (mLit "pretend" true) (mSeq mWs1 (mSeq (mLit "you" true)
        (mSeq mWs1 (mLit "are" true))))
      severity := "medium", description := "Persona override attempt" },
    { matcher := mSeq (mLit "do" true) (mSeq mWs1 (mSeq (mLit "anything" true)
        (mSeq mWs1 (mLit "now" true))))
      severity := "high", description := "DAN jailbreak attempt" },
    { matcher := mSeq (mLit "developer" true) (mSeq mWs1 (mLit "mode" true))
      severity := "high", description := "Developer mode jailbreak attempt" },
    { matcher := mLit "jailbreak" true
      startB := true, endB := true
      severity := "high", description := "Explicit jailbreak keyword" },
    danPattern ]

/-- The threat recorded for a matching injection pattern. -/
def injectionThreat (p : InjPattern) (m : List Char) : ThreatDetail :=
  { threat_type := "prompt_injection"
    description := p.description
    severity := p.severity
    matched_pattern := ⟨m⟩ }

/-- The loop body of `_detect_prompt_injection`. -/
def injectionStep (text : List Char) (acc : List ThreatDetail)
    (p : InjPattern) : List ThreatDetail :=
  match searchPattern p text with
  | some m => acc ++ [injectionThreat p m]
  | none => acc

/-- `ThreatSanitizer._detect_prompt_injection`: scan the pattern table in
order, one threat per matching pattern, recording the matched text. -/
def detectPromptInjection (text : List Char) : List ThreatDetail :=
  injectionPatterns.foldl (injectionStep text) []

/-! ### Delimiter injection detection -/

/-- `in` test of Python: does the pattern occur as a contiguous substring
of the text? -/
def containsSub (pat : List Char) : List Char → Bool
  | [] => pat.isEmpty
  | c :: rest => pat.isPrefixOf (c :: rest) || containsSub pat rest

/-- `_BEGIN_DELIMITER`. -/
def beginDelimiter : String := "### BEGIN DOCUMENT ###"

/-- `_END_DELIMITER`. -/
def endDelimiter : String := "### END DOCUMENT ###"

/-- The loop body of `_detect_delimiter_injection`. -/
def delimiterStep (text : List Char) (acc : List ThreatDetail) (d : String) :
    List ThreatDetail :=
  if containsSub d.data text then
    acc ++ [{ threat_type := "delimiter_injection"
              description := "Text contains reserved delimiter: " ++ d
              severity := "high"
              matched_pattern := d }]
  else acc

/-- `ThreatSanitizer._detect_delimiter_injection`. -/
def detectDelimiterInjection (text : List Char) : List ThreatDetail :=
  [beginDelimiter, endDelimiter].foldl (delimiterStep text)
    ([] : List ThreatDetail)

/-- `ThreatSanitizer.sanitize`: strip dangerous unicode, detect homoglyphs
on the original text, detect prompt and delimiter injection on the cleaned
text; safe iff no high-severity threat. -/
def sanitize (text : String) : SanitizeResult :=
  let cleaned := stripUnicodeThreats text.data
  let threats :=
    detectHomoglyphs text.data ++ detectPromptInjection cleaned ++
      detectDelimiterInjection cleaned
  { is_safe := threats.all (fun t => t.severity ≠ "high")
    threats := threats
    cleaned_text := ⟨cleaned⟩ }

/-! ## Exact decimals (the model of Python floats)

The source computes with IEEE doubles obtained from short decimal
literals, on which double arithmetic and comparisons are exact.  They are
modelled by unnormalised fractions over `Int`/`Nat` (no gcd), whose
operations kernel-reduce. -/

/-- An exact decimal value `num / den` (`den > 0` at every construction
site). -/
structure PyFloat where
  num : Int
  den : Nat
deriving Repr

/-- Value comparison `a < b` by cross multiplication. -/
def pyLt (a b : PyFloat) : Bool := a.num * (b.den : Int) < b.num * (a.den : Int)

/-- Exact addition. -/
def pyAdd (a b : PyFloat) : PyFloat :=
  ⟨a.num * (b.den : Int) + b.num * (a.den : Int), a.den * b.den⟩

/-- Division by a positive count (used for the arithmetic mean). -/
def pyDivNat (a : PyFloat) (n : Nat) : PyFloat := ⟨a.num, a.den * n⟩

/-- Sum of a list. -/
def pySum (l : List PyFloat) : PyFloat := l.foldl pyAdd ⟨0, 1⟩

/-- An integer as a decimal value. -/
def pyOfNat (n : Nat) : PyFloat := ⟨(n : Int), 1⟩

/-! ## PII spans (`backend/blinder/pii_detector.py`, `PIIEntity`) -/

/-- A detected PII span.  Confidence is a float score in `[0, 1]`; the
claims never compute with it. -/
structure PIIEntity where
  text : String
  label : String
  start : Nat
  «end» : Nat
  confidence : PyFloat
  gate : String
deriving Repr

/-! ## Entity mapper (`backend/blinder/entity_mapper.py`) -/

/-- `string.punctuation` (ASCII 33–47, 58–64, 91–96, 123–126). -/
def punctuationChars : List Char :=
  ((List.range 15).map (fun i => Char.ofNat (33 + i))) ++
    ((List.range 7).map (fun i => Char.ofNat (58 + i))) ++
    ((List.range 6).map (fun i => Char.ofNat (91 + i))) ++
    ((List.range 4).map (fun i => Char.ofNat (123 + i)))

/-- ASCII lowering, the model of `str.lower()` on the verified inputs. -/
def lowerAscii (c : Char) : Char :=
  if 65 ≤ c.toNat ∧ c.toNat ≤ 90 then Char.ofNat (c.toNat + 32) else c

/-- `str.strip()` (no argument): strip whitespace from both ends. -/
def pyStripWs (s : List Char) : List Char :=
  (s.dropWhile isPyWs).reverse.dropWhile isPyWs |>.reverse

/-- `str.split()` (no argument): split on whitespace runs, dropping empty
pieces (fuel = list length). -/
def pySplitWsAux : Nat → List Char → List (List Char)
  | 0, _ => []
  | fuel + 1, l =>
    match l.dropWhile isPyWs with
    | [] => []
    | c :: rest =>
      let (w, rest2) := (c :: rest).span (fun d => ¬ isPyWs d)
      w :: pySplitWsAux fuel rest2

/-- `str.split()` of Python. -/
def pySplitWs (l : List Char) : List (List Char) :=
  pySplitWsAux l.length l

/-- Alternation, branches in preference order. -/
def mAlt (ms : List Matcher) : Matcher := fun s => ms.flatMap (fun m => m s)

/-- The matcher of `_TITLE_PATTERN` minus its `^` anchor:
`(mr|mrs|ms|miss|dr|prof|judge|justice|hon|sr|jr)\.?\s+`, applied at
position 0 only (the anchor). -/
def titleMatcher : Matcher :=
  mSeq
    (mAlt ((["mr", "mrs", "ms", "miss", "dr", "prof", "judge", "justice",
             "hon", "sr", "jr"]).map (fun w => mLit w true)))
    (mSeq (mOpt (mLit "." false)) mWs1)

/-- `EntityMapper._normalize`: lowercase + strip, remove one leading
title, strip leading/trailing punctuation and spaces. -/
def emNormalize (text : String) : String :=
  let lowered := pyStripWs (text.data.map lowerAscii)
  let afterTitle :=
    match (titleMatcher lowered).head? with
    | some rest => rest
    | none => lowered
  ⟨pyStripChars (punctuationChars ++ [' ']) afterTitle⟩

/-- `EntityMapper._token_overlap`: cardinality of the intersection of the
two token sets. -/
def tokenOverlap (tokens1 tokens2 : List (List Char)) : Nat :=
  ((tokens1.eraseDups).filter (fun t => t ∈ tokens2)).length

/-- The loop body of `EntityMapper._find_match` over the forward map, in
insertion order: skip alias keys (bracketed), require the same entity
type, then try normalised equality and token overlap ≥ 2. -/
def findMatchLoop (v : Vault) (normText : String) (textTokens : List (List Char))
    (entityType : String) : List (String × String) → Option String
  | [] => none
  | (realValue, pseudonym) :: rest =>
    if realValue.data.head? = some '[' ∧ realValue.data.getLast? = some ']' then
      findMatchLoop v normText textTokens entityType rest
    else
      match dGet v.entries pseudonym with
      | none => findMatchLoop v normText textTokens entityType rest
      | some entry =>
        if entry.entity_type ≠ entityType then
          findMatchLoop v normText textTokens entityType rest
        else
          let normExisting := emNormalize realValue
          if normText = normExisting then some pseudonym
          else if 2 ≤ tokenOverlap textTokens (pySplitWs normExisting.data) then
            some pseudonym
          else findMatchLoop v normText textTokens entityType rest

/-- `EntityMapper._find_match`: exact forward-map hit first (note: without
an entity-type check), then the normalised / token-overlap scan. -/
def findMatch (v : Vault) (text entityType : String) : Option String :=
  match v.get_pseudonym text with
  | some pseudonym => some pseudonym
  | none =>
    let normText := emNormalize text
    findMatchLoop v normText (pySplitWs normText.data) entityType v.forward

/-- Processing of one span inside `resolve_prompt_entities`: on a match
whose canonical real value differs from the span text, register the span
text as an alias and point the forward map at the matched pseudonym.
`none` models the propagated `KeyError` of `add_alias`. -/
def resolveOneEntity (v : Vault) (e : PIIEntity) : Option Vault :=
  match findMatch v e.text e.label with
  | none => some v
  | some pseudonym =>
    match v.get_real_value pseudonym with
    | none => some v
    | some realValue =>
      if realValue ≠ e.text then
        match v.add_alias pseudonym e.text with
        | none => none
        | some v2 => some { v2 with forward := dSet v2.forward e.text pseudonym }
      else some v

/-- `EntityMapper.resolve_prompt_entities`: resolve each span against the
vault (the source's `self._vault` and the `vault` argument are the same
object in every caller, and are modelled as one state); the returned span
list is the input list, appended unchanged. -/
def resolvePromptEntities (v : Vault) (entities : List PIIEntity) :
    Option (List PIIEntity × Vault) :=
  entities.foldl
    (fun acc e =>
      acc.bind (fun st => (resolveOneEntity st.2 e).map (fun v2 => (st.1 ++ [e], v2))))
    (some ([], v))

/-! ## Encryption (`backend/blinder/encryption.py`)

Modelled from the spec: the `AESGCM` primitive of the `cryptography`
library is not part of this repository.  The spec specifies authenticated
encryption whose decryption "fails with a dedicated `AuthenticationFailed`
error if the tag is invalid, the nonce is wrong, or the key is wrong"; the
library's dedicated authenticated-decryption failure is its `InvalidTag`
exception.  The AEAD is idealised accordingly: the ciphertext carries the
masked payload together with an unforgeable tag binding (key, nonce,
payload), so that decryption succeeds exactly when key, nonce and payload
all authenticate.  The UTF-8 codec (also a library) is lossless and
reversible and is modelled as the identity on code points. -/

/-- The authenticated-decryption failure (`InvalidTag` in the library,
`AuthenticationFailed` in the spec). -/
inductive AEADError where
  | authenticationFailed
deriving Repr, DecidableEq

/-- A concrete keystream byte; any fixed keystream models CTR masking. -/
def keystream (key nonce : List Nat) (i : Nat) : Nat :=
  (131 * key.sum + 17 * nonce.sum + 7 * i) % 256

/-- CTR-style masking from stream position `i`: XOR the data with the
keystream (an involution). -/
def maskBytesFrom (key nonce : List Nat) : Nat → List Nat → List Nat
  | _, [] => []
  | i, b :: rest => (b ^^^ keystream key nonce i) :: maskBytesFrom key nonce (i + 1) rest

/-- CTR-style masking of a payload. -/
def maskBytes (key nonce data : List Nat) : List Nat :=
  maskBytesFrom key nonce 0 data

/-- An AEAD ciphertext: masked payload plus the idealised authentication
tag. -/
structure AEADCiphertext where
  body : List Nat
  tag : List Nat × List Nat × List Nat
deriving Repr, DecidableEq

/-- Idealised `AESGCM(key).encrypt(nonce, data, None)`. -/
def aeadEncrypt (key nonce data : List Nat) : AEADCiphertext :=
  let body := maskBytes key nonce data
  ⟨body, (key, nonce, body)⟩

/-- Idealised `AESGCM(key).decrypt(nonce, ct, None)`. -/
def aeadDecrypt (key nonce : List Nat) (ct : AEADCiphertext) :
    Except AEADError (List Nat) :=
  if ct.tag = (key, nonce, ct.body) then .ok (maskBytes key nonce ct.body)
  else .error .authenticationFailed

/-- `encryption.encrypt(plaintext, key)`: the fresh random 12-byte nonce
of `os.urandom` is passed as an explicit argument; returns
`(ciphertext, nonce)`. -/
def encrypt (plaintext : String) (key : List Nat) (nonce : List Nat) :
    AEADCiphertext × List Nat :=
  (aeadEncrypt key nonce (plaintext.data.map Char.toNat), nonce)

/-- `encryption.decrypt(ciphertext, key, nonce)`. -/
def decrypt (ct : AEADCiphertext) (key nonce : List Nat) :
    Except AEADError String :=
  (aeadDecrypt key nonce ct).map
    (fun bytes => ⟨bytes.map Char.ofNat⟩)

/-! ## Tabular query engine (`backend/services/tabular_query.py`)

Numeric cell values are parsed by Python's `float()`; the verified
documents contain only plain decimal literals, on which IEEE doubles are
exact, so numbers are modelled as rationals with a decimal printer that
agrees with CPython's float formatting on such values. -/

/-- `float(s)` restricted to optionally signed plain decimal literals
(`digits`, `digits.`, `.digits`, `digits.digits`); no exponents,
`inf`/`nan` or non-ASCII digits, which never occur in the verified
inputs. -/
def pyFloatParse (l : List Char) : Option PyFloat :=
  let t := pyStripWs l
  let (neg, u) :=
    match t with
    | '-' :: rest => (true, rest)
    | '+' :: rest => (false, rest)
    | _ => (false, t)
  let (ip, r1) := u.span isDigitChar
  let build : List Char → List Char → Option PyFloat := fun ipart fpart =>
    if ipart = [] ∧ fpart = [] then none
    else
      let m : Nat := digitsVal ipart * 10 ^ fpart.length + digitsVal fpart
      some ⟨if neg then -(m : Int) else (m : Int), 10 ^ fpart.length⟩
  match r1 with
  | [] => if ip = [] then none else build ip []
  | '.' :: r2 =>
    let (fp, r3) := r2.span isDigitChar
    if r3 = [] then build ip fp else none
  | _ => none

/-- Fuel search for the least `k` such that `(a / den) * 10 ^ k` is
integral. -/
def decExponentAux (a den : Nat) : Nat → Nat → Option Nat
  | 0, _ => none
  | fuel + 1, k =>
    if (a * 10 ^ k) % den = 0 then some k else decExponentAux a den fuel (k + 1)

/-- Zero-padded decimal rendering to a fixed width. -/
def natReprPad (n width : Nat) : String :=
  let s := natRepr n
  ⟨List.replicate (width - s.data.length) '0'⟩ ++ s

/-- CPython `repr`/f-string formatting of a float holding an exactly
representable short decimal: shortest decimal expansion, with `.0` for
integral values (`f"{60.0}"` is `"60.0"`). -/
def pyFloatRepr (q : PyFloat) : String :=
  let sign := if q.num < 0 then "-" else ""
  let a := q.num.natAbs
  match decExponentAux a q.den 19 0 with
  | none => sign ++ natRepr (a / q.den)  -- unreachable for decimal-parsed values
  | some k =>
    let scaled := a * 10 ^ k / q.den
    if k = 0 then sign ++ natRepr scaled ++ ".0"
    else sign ++ natRepr (scaled / 10 ^ k) ++ "." ++ natReprPad (scaled % 10 ^ k) k

/-- `f"{q:.2f}"`: round half to even at two decimals.  (CPython rounds the
underlying binary double; the two agree on the short decimals exercised
here.) -/
def pyFormatF2 (q : PyFloat) : String :=
  let num' := q.num * 100
  let den : Int := (q.den : Int)
  let f : Int := Int.fdiv num' den
  let rem : Int := num' - f * den
  let n : Int :=
    if den < 2 * rem then f + 1
    else if 2 * rem < den then f
    else if f % 2 = 0 then f else f + 1
  (if n < 0 then "-" else "") ++ natRepr (n.natAbs / 100) ++ "." ++
    natReprPad (n.natAbs % 100) 2

/-- Count of non-overlapping occurrences (`str.count`). -/
def countSubAux : Nat → List Char → List Char → Nat
  | 0, _, _ => 0
  | fuel + 1, pat, l =>
    match l with
    | [] => 0
    | _ :: rest =>
      if pat ≠ [] ∧ pat.isPrefixOf l then
        1 + countSubAux fuel pat (l.drop pat.length)
      else countSubAux fuel pat rest

/-- `str.count(pat)` for a nonempty pattern. -/
def countSub (pat l : List Char) : Nat :=
  countSubAux l.length pat l

/-- `str.split(sep, maxsplit)` for a one-character separator (empty pieces
kept). -/
def pySplitCharMax : Nat → Char → List Char → List (List Char)
  | 0, _, l => [l]
  | m + 1, sep, l =>
    match l.span (· ≠ sep) with
    | (pre, []) => [pre]
    | (pre, _ :: rest) => pre :: pySplitCharMax m sep rest

/-- `str.split(sep)` for a one-character separator. -/
def pySplitChar (sep : Char) (l : List Char) : List (List Char) :=
  pySplitCharMax l.length sep l

/-- Leftmost occurrence of a nonempty separator: the piece before it and
the remainder after it. -/
def splitFirstSub (sep : List Char) : List Char → Option (List Char × List Char)
  | [] => none
  | c :: rest =>
    if sep ≠ [] ∧ sep.isPrefixOf (c :: rest) then
      some ([], (c :: rest).drop sep.length)
    else (splitFirstSub sep rest).map (fun p => (c :: p.1, p.2))

/-- `str.split(sep)` for a nonempty multi-character separator. -/
def pySplitSubAux : Nat → List Char → List Char → List (List Char)
  | 0, _, l => [l]
  | fuel + 1, sep, l =>
    match splitFirstSub sep l with
    | none => [l]
    | some (pre, post) => pre :: pySplitSubAux fuel sep post

/-- `str.split(sep)` of Python. -/
def pySplitSub (sep l : List Char) : List (List Char) :=
  pySplitSubAux (l.length + 1) sep l

/-- Lexicographic comparison of code-point sequences (Python `str` `<`). -/
def charListLe : List Char → List Char → Bool
  | [], _ => true
  | _ :: _, [] => false
  | a :: as_, b :: bs =>
    if a < b then true else if b < a then false else charListLe as_ bs

/-- Stable ascending insertion for string sorting: a new element goes
after every existing element that is not strictly greater. -/
def insertStr (x : String) : List String → List String
  | [] => [x]
  | y :: ys =>
    if charListLe x.data y.data ∧ x ≠ y then x :: y :: ys
    else y :: insertStr x ys

/-- `sorted(strings)`. -/
def sortStrings (l : List String) : List String :=
  l.foldl (fun acc x => insertStr x acc) []

/-- `TabularData`: header + data rows. -/
structure TabularData where
  header : List String
  rows : List (List String)
  header_raw : String := ""
deriving Repr, DecidableEq

/-- `QueryResult`: outcome of a structured tabular query. -/
structure QueryResult where
  success : Bool
  context : String
  query_type : String := "unknown"
  details : String := ""
deriving Repr, DecidableEq

/-- `SEPARATOR`. -/
def tabSeparator : String := " | "

/-- `is_tabular`: at least 2 of the first 6 lines contain at least 2
separators. -/
def is_tabular (text : String) : Bool :=
  let lines := pySplitCharMax 5 '\n' text.data
  2 ≤ (lines.filter (fun line => 2 ≤ countSub tabSeparator.data line)).length

/-- `parse_tabular`: header from the first non-empty line, rows padded or
trimmed to the header width. -/
def parse_tabular (text : String) : Option TabularData :=
  let nonEmpty := (pySplitChar '\n' text.data).filter (fun l => pyStripWs l ≠ [])
  match nonEmpty with
  | [] => none
  | [_] => none
  | headerRaw :: rest =>
    let header : List String :=
      (pySplitSub tabSeparator.data headerRaw).map (fun c => (⟨pyStripWs c⟩ : String))
    let rows := rest.map (fun line =>
      let cells : List String :=
        (pySplitSub tabSeparator.data line).map (fun c => (⟨pyStripWs c⟩ : String))
      if cells.length < header.length then
        cells ++ List.replicate (header.length - cells.length) ""
      else cells.take header.length)
    some { header := header, rows := rows, header_raw := ⟨headerRaw⟩ }

/-- Character class `[A-Z]`. -/
def isUpperAZ (c : Char) : Bool := 65 ≤ c.toNat ∧ c.toNat ≤ 90

/-- Match of `\[([A-Z][A-Z0-9_]*_\d+)\]` at the head of the input.  The
class `[A-Z0-9_]` contains digits, so the greedy run extends to the `]`;
backtracking succeeds exactly when the run ends with an underscore
followed by a nonempty digit run. -/
def matchPseudonym2At : List Char → Option (List Char × List Char)
  | '[' :: c :: rest =>
    if isUpperAZ c then
      match (c :: rest).span (fun d => isUpperAZ d || isDigitChar d || d = '_') with
      | (content, ']' :: rest2) =>
        let (dsuf, revPre) := content.reverse.span isDigitChar
        match dsuf, revPre with
        | [], _ => none
        | _, '_' :: _ => some (content, rest2)
        | _, _ => none
      | _ => none
    else none
  | _ => none

/-- `re.findall` scanner for the tabular pseudonym regex. -/
def findPseudonyms2Aux : Nat → List Char → List (List Char)
  | 0, _ => []
  | _, [] => []
  | fuel + 1, s =>
    match matchPseudonym2At s with
    | some (g, rest) => g :: findPseudonyms2Aux fuel rest
    | none => findPseudonyms2Aux fuel s.tail

/-- All pseudonym groups of the tabular grammar found in a text. -/
def findPseudonyms2 (s : List Char) : List (List Char) :=
  findPseudonyms2Aux s.length s

/-- Boolean word-bounded alternation search — the `\b(alt|...)\b` intent
regexes (all alternatives start and end with word characters). -/
def wordAltSearch (alts : List Matcher) (text : List Char) : Bool :=
  (searchPattern
    { matcher := mAlt alts, startB := true, endB := true,
      severity := "", description := "" } text).isSome

/-- `.+` (no DOTALL): one or more non-newline characters, longest first. -/
def mDot1Plus : Matcher := fun s =>
  let w := s.takeWhile (· ≠ '\n')
  (List.range w.length).map (fun i => s.drop (w.length - i))

/-- `total(?! number)`: the literal with its negative lookahead. -/
def mTotalNotNumber : Matcher := fun s =>
  (mLit "total" true s).filter
    (fun r => ¬ (" number".data.map foldAscii).isPrefixOf (r.map foldAscii))

/-- `_COUNT_PATTERNS`. -/
def countSearch (text : List Char) : Bool :=
  wordAltSearch [mLit "how many" true, mLit "count" true,
    mLit "total number" true, mLit "number of" true] text

/-- `_AVG_PATTERNS`. -/
def avgSearch (text : List Char) : Bool :=
  wordAltSearch [mLit "average" true, mLit "mean" true, mLit "avg" true] text

/-- `_SUM_PATTERNS`. -/
def sumSearch (text : List Char) : Bool :=
  wordAltSearch [mLit "sum" true, mTotalNotNumber] text

/-- `_EXTREMA_MAX_PATTERNS`. -/
def extremaMaxSearch (text : List Char) : Bool :=
  wordAltSearch [mLit "oldest" true, mLit "highest" true, mLit "maximum" true,
    mLit "max" true, mLit "most" true, mLit "largest" true,
    mLit "biggest" true, mLit "top" true] text

/-- `_EXTREMA_MIN_PATTERNS`. -/
def extremaMinSearch (text : List Char) : Bool :=
  wordAltSearch [mLit "youngest" true, mLit "lowest" true, mLit "minimum" true,
    mLit "min" true, mLit "least" true, mLit "smallest" true,
    mLit "bottom" true] text

/-- `_COMPARE_PATTERNS`. -/
def compareSearch (text : List Char) : Bool :=
  wordAltSearch [mLit "compare" true, mLit "difference between" true,
    mLit "versus" true, mLit "vs" true] text

/-- `_FILTER_PATTERNS`. -/
def filterSearch (text : List Char) : Bool :=
  wordAltSearch [mLit "list all" true, mLit "show all" true,
    mLit "list everyone" true, mLit "show everyone" true,
    mSeq (mLit "all " true) (mSeq mDot1Plus (mSeq (mLit " " false)
      (mAlt [mLit "with" true, mLit "in" true, mLit "from" true,
        mLit "over" true, mLit "under" true, mLit "above" true,
        mLit "below" true])))] text

/-- `_NUMERIC_COLUMN_HINTS` search over a column name. -/
def numericHintSearch (text : List Char) : Bool :=
  wordAltSearch [mLit "age" true, mLit "salary" true, mLit "income" true,
    mLit "amount" true, mLit "balance" true, mLit "score" true,
    mLit "rating" true, mLit "count" true, mLit "total" true,
    mLit "price" true, mLit "cost" true, mLit "weight" true,
    mLit "height" true, mSeq (mLit "year" true) (mOpt (mLit "s" true)),
    mSeq (mLit "month" true) (mOpt (mLit "s" true)),
    mSeq (mLit "day" true) (mOpt (mLit "s" true)), mLit "number" true,
    mLit "quantity" true, mLit "rate" true, mLit "percentage" true,
    mLit "zip" true] text

/-- Match of `(kw1|...)\s*(\d+(?:\.\d+)?)` at the current position: try
each keyword in order, then skip whitespace and take the greedy number;
returns `float(group(2))`. -/
def thresholdAt (kws : List String) (s : List Char) : Option PyFloat :=
  (kws.filterMap (fun kw =>
    let pat := kw.data.map foldAscii
    if (s.take pat.length).map foldAscii = pat then
      let afterWs := (s.drop pat.length).dropWhile isRegexWs
      let (d, rest) := afterWs.span isDigitChar
      if d = [] then none
      else
        match rest with
        | '.' :: r2 =>
          match r2.span isDigitChar with
          | ([], _) => some (pyOfNat (digitsVal d))
          | (fp, _) =>
            some ⟨((digitsVal d * 10 ^ fp.length + digitsVal fp : Nat) : Int),
                  10 ^ fp.length⟩
        | _ => some (pyOfNat (digitsVal d))
    else none)).head?

/-- `re.search` for the threshold regex: leftmost position wins. -/
def searchThreshold (kws : List String) : List Char → Option PyFloat
  | [] => none
  | c :: rest =>
    match thresholdAt kws (c :: rest) with
    | some v => some v
    | none => searchThreshold kws rest

/-- `_find_rows_with_value`: all rows across all tables with a cell
containing the value. -/
def findRowsWithValue (tables : List TabularData) (value : String) :
    List (TabularData × List String) :=
  tables.flatMap (fun t =>
    (t.rows.filter (fun row =>
      row.any (fun cell => containsSub value.data cell.data))).map
      (fun row => (t, row)))

/-- `_format_row`: key-value lines for the nonblank cells. -/
def formatRow (header row : List String) : String :=
  String.intercalate "\n"
    ((header.zip row).filterMap (fun p =>
      if pyStripWs p.2.data ≠ [] then some ("  - " ++ p.1 ++ ": " ++ p.2)
      else none))

/-- `_find_column`: first column whose lowered name occurs in the lowered
query. -/
def findColumn (header : List String) (query : String) : Option Nat :=
  let ql := query.data.map lowerAscii
  (header.enum.find? (fun p => containsSub (p.2.data.map lowerAscii) ql)).map (·.1)

/-- `_find_numeric_column`: direct name match, else the first
numeric-hinted column. -/
def findNumericColumn (header : List String) (query : String) : Option Nat :=
  match findColumn header query with
  | some i => some i
  | none => (header.enum.find? (fun p => numericHintSearch p.2.data)).map (·.1)

/-- `_get_numeric_values`: parse the column as floats, keeping the rows;
non-numeric cells are skipped. -/
def getNumericValues (t : TabularData) (colIdx : Nat) :
    List (PyFloat × List String) :=
  t.rows.filterMap (fun row =>
    (row.get? colIdx).bind (fun cell =>
      (pyFloatParse (pyStripWs (pyReplace (pyReplace cell "," "") "$" "").data)).map
        (fun v => (v, row))))

/-- A column name wrapped in apostrophes, as the f-strings render it. -/
def quoteCol (s : String) : String := ⟨[apos]⟩ ++ s ++ ⟨[apos]⟩

/-- `_handle_point_lookup`. -/
def handlePointLookup (tables : List TabularData) (pseudonym : String) :
    QueryResult :=
  let matchRows := findRowsWithValue tables pseudonym
  if matchRows = [] then
    { success := false
      context := "No data found for " ++ pseudonym ++ " in the documents."
      query_type := "point_lookup" }
  else
    { success := true
      context := String.intercalate "\n\n"
        (matchRows.map (fun m =>
          "Data for " ++ pseudonym ++ ":\n" ++ formatRow m.1.header m.2))
      query_type := "point_lookup"
      details := "Found " ++ natRepr matchRows.length ++ " row(s) for " ++ pseudonym }

/-- `_handle_multi_lookup`. -/
def handleMultiLookup (tables : List TabularData) (pseudoSet : List String) :
    QueryResult :=
  let parts := (sortStrings pseudoSet).flatMap (fun pseudo =>
    let matchRows := findRowsWithValue tables pseudo
    if matchRows = [] then ["No data found for " ++ pseudo ++ "."]
    else matchRows.map (fun m =>
      "Data for " ++ pseudo ++ ":\n" ++ formatRow m.1.header m.2))
  { success := true
    context := String.intercalate "\n\n" parts
    query_type := "multi_lookup" }

/-- `_handle_comparison`. -/
def handleComparison (tables : List TabularData) (pseudoSet : List String) :
    QueryResult :=
  let parts := "Comparison:" :: (sortStrings pseudoSet).map (fun pseudo =>
    match findRowsWithValue tables pseudo with
    | [] => "\n" ++ pseudo ++ ": No data found."
    | m :: _ => "\n" ++ pseudo ++ ":\n" ++ formatRow m.1.header m.2)
  { success := true
    context := String.intercalate "\n" parts
    query_type := "comparison" }

/-- `_handle_reverse_lookup`. -/
def handleReverseLookup (query : String) (tables : List TabularData) :
    QueryResult :=
  let results := (findPseudonyms2 query.data).flatMap (fun p =>
    let full : String := "[" ++ (⟨p⟩ : String) ++ "]"
    (findRowsWithValue tables full).map (fun m =>
      "Row containing " ++ full ++ ":\n" ++ formatRow m.1.header m.2))
  if results = [] then
    { success := false, context := "No matching rows found."
      query_type := "reverse_lookup" }
  else
    { success := true, context := String.intercalate "\n\n" results
      query_type := "reverse_lookup" }

/-- The keyword alternatives of the upper-threshold regex
`(over|above|greater than|more than|>)\s*(\d+(?:\.\d+)?)`. -/
def overKeywords : List String := ["over", "above", "greater than", "more than", ">"]

/-- The keyword alternatives of the lower-threshold regex in
`_handle_count`. -/
def underKeywords : List String := ["under", "below", "less than", "fewer than", "<"]

/-- `_handle_count`: every branch of the loop body returns, so only the
first table is ever inspected. -/
def handleCount (query : String) (tables : List TabularData) : QueryResult :=
  match tables with
  | [] => { success := false, context := "No tabular data to count."
            query_type := "count" }
  | t :: _ =>
    match findNumericColumn t.header query with
    | none =>
      { success := true
        context := "Total rows in the dataset: " ++ natRepr t.rows.length
        query_type := "count" }
    | some colIdx =>
      let colName := t.header.getD colIdx ""
      let numericVals := getNumericValues t colIdx
      match searchThreshold overKeywords query.data with
      | some threshold =>
        let count := (numericVals.filter (fun p => pyLt threshold p.1)).length
        { success := true
          context :=
            "ANALYSIS METHOD: Scanned " ++ natRepr t.rows.length ++
            " rows in the dataset. Parsed the " ++ quoteCol colName ++
            " column as numeric values across " ++ natRepr numericVals.length ++
            " valid rows (non-numeric entries excluded). Applied filter: " ++
            colName ++ " > " ++ pyFloatRepr threshold ++ ".\n\nRESULT: " ++
            natRepr count ++ " out of " ++ natRepr numericVals.length ++
            " rows have " ++ colName ++ " greater than " ++
            pyFloatRepr threshold ++ "."
          query_type := "count" }
      | none =>
        match searchThreshold underKeywords query.data with
        | some threshold =>
          let count := (numericVals.filter (fun p => pyLt p.1 threshold)).length
          { success := true
            context :=
              "ANALYSIS METHOD: Scanned " ++ natRepr t.rows.length ++
              " rows in the dataset. Parsed the " ++ quoteCol colName ++
              " column as numeric values across " ++ natRepr numericVals.length ++
              " valid rows (non-numeric entries excluded). Applied filter: " ++
              colName ++ " < " ++ pyFloatRepr threshold ++ ".\n\nRESULT: " ++
              natRepr count ++ " out of " ++ natRepr numericVals.length ++
              " rows have " ++ colName ++ " less than " ++
              pyFloatRepr threshold ++ "."
            query_type := "count" }
        | none =>
          { success := true
            context :=
              "ANALYSIS METHOD: Scanned " ++ natRepr t.rows.length ++
              " rows in the dataset. Counted rows with valid " ++
              quoteCol colName ++ " data.\n\nRESULT: " ++
              natRepr numericVals.length ++ " rows have valid " ++ colName ++
              " data (out of " ++ natRepr t.rows.length ++ " total rows)."
            query_type := "count" }

/-- `min(values)` (first minimum). -/
def pyListMin : List PyFloat → PyFloat
  | [] => ⟨0, 1⟩
  | x :: xs => xs.foldl (fun b v => if pyLt v b then v else b) x

/-- `max(values)` (first maximum). -/
def pyListMax : List PyFloat → PyFloat
  | [] => ⟨0, 1⟩
  | x :: xs => xs.foldl (fun b v => if pyLt b v then v else b) x

/-- `_handle_average` (loops over tables until one has a numeric column
with values). -/
def handleAverage (query : String) : List TabularData → QueryResult
  | [] => { success := false
            context := "Could not find a numeric column to average."
            query_type := "average" }
  | t :: rest =>
    match findNumericColumn t.header query with
    | none => handleAverage query rest
    | some colIdx =>
      let colName := t.header.getD colIdx ""
      let numericVals := getNumericValues t colIdx
      if numericVals.isEmpty then handleAverage query rest
      else
        let values := numericVals.map (·.1)
        let avg := pyDivNat (pySum values) values.length
        { success := true
          context :=
            "ANALYSIS METHOD: Extracted numeric values from the " ++
            quoteCol colName ++ " column across " ++ natRepr values.length ++
            " valid rows (out of " ++ natRepr t.rows.length ++
            " total). Computed the arithmetic mean: sum of all values / count.\n\nRESULT: Average " ++
            colName ++ " = " ++ pyFormatF2 avg ++ " (min: " ++
            pyFormatF2 (pyListMin values) ++ ", max: " ++
            pyFormatF2 (pyListMax values) ++ ", computed from " ++
            natRepr values.length ++ " rows)."
          query_type := "average" }

/-- `_handle_sum`. -/
def handleSum (query : String) : List TabularData → QueryResult
  | [] => { success := false
            context := "Could not find a numeric column to sum."
            query_type := "sum" }
  | t :: rest =>
    match findNumericColumn t.header query with
    | none => handleSum query rest
    | some colIdx =>
      let colName := t.header.getD colIdx ""
      let numericVals := getNumericValues t colIdx
      if numericVals.isEmpty then handleSum query rest
      else
        let values := numericVals.map (·.1)
        { success := true
          context :=
            "ANALYSIS METHOD: Extracted numeric values from the " ++
            quoteCol colName ++ " column across " ++ natRepr values.length ++
            " valid rows (out of " ++ natRepr t.rows.length ++
            " total). Summed all values.\n\nRESULT: Sum of " ++ colName ++
            " = " ++ pyFormatF2 (pySum values) ++ " (from " ++
            natRepr values.length ++ " rows)."
          query_type := "sum" }

/-- `max(numeric_vals, key=first)` — first maximal element. -/
def pairListMax (x : PyFloat × List String) (xs : List (PyFloat × List String)) :
    PyFloat × List String :=
  xs.foldl (fun b v => if pyLt b.1 v.1 then v else b) x

/-- `min(numeric_vals, key=first)` — first minimal element. -/
def pairListMin (x : PyFloat × List String) (xs : List (PyFloat × List String)) :
    PyFloat × List String :=
  xs.foldl (fun b v => if pyLt v.1 b.1 then v else b) x

/-- `_handle_extrema`. -/
def handleExtrema (query : String) (direction : String) :
    List TabularData → QueryResult
  | [] => { success := false, context := "Could not find a numeric column."
            query_type := "extrema" }
  | t :: rest =>
    match findNumericColumn t.header query with
    | none => handleExtrema query direction rest
    | some colIdx =>
      let colName := t.header.getD colIdx ""
      match getNumericValues t colIdx with
      | [] => handleExtrema query direction rest
      | nv :: nvs =>
        let best := if direction = "max" then pairListMax nv nvs else pairListMin nv nvs
        let label := if direction = "max" then "highest" else "lowest"
        { success := true
          context :=
            "ANALYSIS METHOD: Extracted numeric values from the " ++
            quoteCol colName ++ " column across " ++
            natRepr (nv :: nvs).length ++ " valid rows (out of " ++
            natRepr t.rows.length ++ " total). Sorted by " ++ colName ++
            " to find the " ++ label ++ " value.\n\nRESULT: Row with " ++
            label ++ " " ++ colName ++ " (" ++ pyFloatRepr best.1 ++ "):\n" ++
            formatRow t.header best.2
          query_type := "extrema" }

/-- The lower-threshold keyword list of `_handle_filter` (which, unlike
`_handle_count`, lacks "fewer than"). -/
def underKeywordsFilter : List String := ["under", "below", "less than", "<"]

/-- `_handle_filter`; `none` falls back to retrieval. -/
def handleFilter (query : String) : List TabularData → Option QueryResult
  | [] => none
  | t :: rest =>
    match findNumericColumn t.header query with
    | none => handleFilter query rest
    | some colIdx =>
      let colName := t.header.getD colIdx ""
      let numericVals := getNumericValues t colIdx
      let matchesOpt : Option (List (PyFloat × List String)) :=
        match searchThreshold overKeywords query.data with
        | some threshold => some (numericVals.filter (fun p => pyLt threshold p.1))
        | none =>
          match searchThreshold underKeywordsFilter query.data with
          | some threshold => some (numericVals.filter (fun p => pyLt p.1 threshold))
          | none => none
      match matchesOpt with
      | none => handleFilter query rest
      | some matchRows =>
        if matchRows.isEmpty then
          some { success := true
                 context := "No rows found matching the filter on " ++ colName ++ "."
                 query_type := "filter" }
        else
          let displayMatches := matchRows.take 20
          let parts :=
            ("ANALYSIS METHOD: Scanned " ++ natRepr t.rows.length ++
             " rows in the dataset. Parsed the " ++ quoteCol colName ++
             " column as numeric values across " ++ natRepr numericVals.length ++
             " valid rows. Applied filter to find matching rows.\n\nRESULT: Found " ++
             natRepr matchRows.length ++ " rows matching filter on " ++ colName ++
             ":\n") ::
            (displayMatches.flatMap (fun m => [formatRow t.header m.2, ""])) ++
            (if 20 < matchRows.length then
              ["... and " ++ natRepr (matchRows.length - 20) ++ " more rows."]
            else [])
          some { success := true
                 context := String.intercalate "\n" parts
                 query_type := "filter" }

/-- `try_tabular_query`: parse the tabular documents, read the query
intent and dispatch.  The Python `pseudo_set` is a hash set; it is
modelled as the first-occurrence-ordered deduplication (the verified
queries make at most one element relevant). -/
def try_tabular_query (blinded_query : String) (blinded_documents : List String) :
    Option QueryResult :=
  let tables := blinded_documents.filterMap (fun d =>
    if is_tabular d then
      (parse_tabular d).bind (fun p => if 0 < p.rows.length then some p else none)
    else none)
  if tables = [] then none
  else
    let pseudoSet :=
      ((findPseudonyms2 blinded_query.data).map
        (fun p => "[" ++ (⟨p⟩ : String) ++ "]")).eraseDups
    if compareSearch blinded_query.data ∧ 2 ≤ pseudoSet.length then
      some (handleComparison tables pseudoSet)
    else
      match pseudoSet with
      | [p] => some (handlePointLookup tables p)
      | _ :: _ :: _ => some (handleMultiLookup tables pseudoSet)
      | [] =>
        if countSearch blinded_query.data then some (handleCount blinded_query tables)
        else if avgSearch blinded_query.data then
          some (handleAverage blinded_query tables)
        else if sumSearch blinded_query.data then
          some (handleSum blinded_query tables)
        else if extremaMaxSearch blinded_query.data then
          some (handleExtrema blinded_query "max" tables)
        else if extremaMinSearch blinded_query.data then
          some (handleExtrema blinded_query "min" tables)
        else if filterSearch blinded_query.data then
          handleFilter blinded_query tables
        else if findPseudonyms2 blinded_query.data ≠ [] then
          some (handleReverseLookup blinded_query tables)
        else none

end Blinder

/-! ## Shared lemmas -/

section SharedLemmas
open Blinder

namespace Blinder

/-- Looking up the key just set. -/
theorem dGet_dSet_self {β : Type} (d : List (String × β)) (k : String) (v : β) :
    dGet (dSet d k v) k = some v := by
  induction d with
  | nil => simp [dGet, dSet]
  | cons p rest ih =>
    by_cases hk : p.1 = k
    · simp [dGet, dSet, hk]
    · simp [dGet, dSet, hk, ih]

/-- Setting one key leaves other lookups unchanged. -/
theorem dGet_dSet_ne {β : Type} (d : List (String × β)) (k k' : String) (v : β)
    (h : k ≠ k') : dGet (dSet d k' v) k = dGet d k := by
  induction d with
  | nil => simp [dGet, dSet, Ne.symm h]
  | cons p rest ih =>
    by_cases hk : p.1 = k'
    · simp [dGet, dSet, hk, Ne.symm h]
    · by_cases hpk : p.1 = k
      · simp [dGet, dSet, hk, hpk, h]
      · simp [dGet, dSet, hk, hpk, ih]

/-- `dSet` at an existing key preserves the key list. -/
theorem dSet_keys_of_mem {β : Type} (d : List (String × β)) (k : String) (v : β)
    (h : dGet d k ≠ none) : (dSet d k v).map (·.1) = d.map (·.1) := by
  induction d with
  | nil => simp [dGet] at h
  | cons p rest ih =>
    by_cases hk : p.1 = k
    · simp [dSet, hk]
    · simp [dGet, hk] at h
      simp [dSet, hk, ih h]

end Blinder

end SharedLemmas

/-! ## Claim theorems -/

section ClaimTheorems
open Blinder

/-- C1: starting from an empty vault, `add_entity` numbers pseudonyms
`[TYPE_N]` from 1 per entity type, and re-registering a known real value
returns the existing pseudonym with the whole vault state (counters
included) unchanged. -/
theorem vault_add_entity_scenario :
    (((Vault.new [] []).add_entity "John Smith" "PERSON").1 = "[PERSON_1]") ∧
    ((((Vault.new [] []).add_entity "John Smith" "PERSON").2.add_entity
        "Jane Doe" "PERSON").1 = "[PERSON_2]") ∧
    (((((Vault.new [] []).add_entity "John Smith" "PERSON").2.add_entity
        "Jane Doe" "PERSON").2.add_entity "Acme Corp" "ORG").1 = "[ORG_1]") ∧
    ((((((Vault.new [] []).add_entity "John Smith" "PERSON").2.add_entity
        "Jane Doe" "PERSON").2.add_entity "Acme Corp" "ORG").2.add_entity
        "John Smith" "PERSON") =
      ("[PERSON_1]",
        ((((Vault.new [] []).add_entity "John Smith" "PERSON").2.add_entity
          "Jane Doe" "PERSON").2.add_entity "Acme Corp" "ORG").2)) := by
  decide

/-- C9: when the real value is already in the forward map, `add_entity`
returns the stored pseudonym for any requested entity type and leaves the
vault (maps, entries and counters) entirely unchanged. -/
theorem add_entity_known_value_noop (v : Vault) (r T p : String)
    (h : dGet v.forward r = some p) : v.add_entity r T = (p, v) := by
  simp [Vault.add_entity, h]

/-- Witness for C9 at a value registered as PERSON and re-added as ORG. -/
theorem add_entity_known_value_noop_witness :
    dGet (((Vault.new [] []).add_entity "John Smith" "PERSON").2).forward
      "John Smith" = some "[PERSON_1]" ∧
    (((Vault.new [] []).add_entity "John Smith" "PERSON").2).add_entity
      "John Smith" "ORG" =
      ("[PERSON_1]", ((Vault.new [] []).add_entity "John Smith" "PERSON").2) :=
  ⟨by decide, add_entity_known_value_noop _ _ _ _ (by decide)⟩

/-- C3: restoration replaces longer pseudonyms before shorter ones
(`[PERSON_10]` before `[PERSON_1]`, leaving no `0]` residue) and handles
possessive forms. -/
theorem depseudonymizer_restore_scenarios :
    (Depseudonymizer.restore
      ((Vault.new [] []).load_entries
        [⟨"PERSON", "[PERSON_1]", "Alice", []⟩,
         ⟨"PERSON", "[PERSON_10]", "Judy", []⟩])
      "[PERSON_10] met with [PERSON_1]." = "Judy met with Alice.") ∧
    (containsSub "0]".data
      (Depseudonymizer.restore
        ((Vault.new [] []).load_entries
          [⟨"PERSON", "[PERSON_1]", "Alice", []⟩,
           ⟨"PERSON", "[PERSON_10]", "Judy", []⟩])
        "[PERSON_10] met with [PERSON_1].").data = false) ∧
    (Depseudonymizer.restore
      ((Vault.new [] []).load_entries [⟨"PERSON", "[PERSON_1]", "Jane Doe", []⟩])
      ("[PERSON_1]" ++ ⟨[apos, 's']⟩ ++ " complaint was filed.") =
      "Jane Doe" ++ ⟨[apos, 's']⟩ ++ " complaint was filed.") := by
  decide

/-- C8 counterexample: the two-column table of the claim has only one
` | ` separator per line, so `is_tabular` rejects it and
`try_tabular_query` returns `None` instead of a count result. -/
theorem tabular_two_column_counterexample :
    try_tabular_query "how many people are over 60?"
      ["age | name\n65 | [PERSON_1]\n45 | [PERSON_2]\n72 | [PERSON_3]"] = none := by
  decide

/-- C8 amended: on a table that `is_tabular` accepts (a third column
added), the count query succeeds with query type `count` and the context
ends with "RESULT: 2 out of 3 rows have age greater than 60.0." — the
threshold is printed as the float `60.0`, not `60`. -/
theorem tabular_count_scenario :
    ((try_tabular_query "how many people are over 60?"
      ["age | name | city\n65 | [PERSON_1] | NY\n45 | [PERSON_2] | LA\n72 | [PERSON_3] | SF"]).map
        (fun r => (r.success, r.query_type,
          ("RESULT: 2 out of 3 rows have age greater than 60.0.").data.isSuffixOf
            r.context.data))) = some (true, "count", true) := by
  decide

/-- XOR masking is an involution (from any stream position). -/
theorem maskBytesFrom_involution (key nonce : List Nat) :
    ∀ (d : List Nat) (i : Nat),
      maskBytesFrom key nonce i (maskBytesFrom key nonce i d) = d := by
  intro d
  induction d with
  | nil => intro i; rfl
  | cons b rest ih =>
    intro i
    simp only [maskBytesFrom, ih]
    rw [Nat.xor_assoc, Nat.xor_self, Nat.xor_zero]

/-- Decoding the encoded code points gives the original string back. -/
theorem codepoints_roundtrip (x : String) :
    (⟨x.data.map (Char.ofNat ∘ Char.toNat)⟩ : String) = x := by
  have : (Char.ofNat ∘ Char.toNat) = id := by
    funext c
    exact Char.ofNat_toNat c
  rw [this, List.map_id]

/-- C4: decryption inverts encryption under the same key and nonce, and
fails with the dedicated authentication error under any other key, any
other nonce, or any tampering of the ciphertext body. -/
theorem encryption_roundtrip_auth (x : String) (k n : List Nat) :
    (decrypt (encrypt x k n).1 k n = Except.ok x) ∧
    (∀ k', k' ≠ k →
      decrypt (encrypt x k n).1 k' n = Except.error AEADError.authenticationFailed) ∧
    (∀ n', n' ≠ n →
      decrypt (encrypt x k n).1 k n' = Except.error AEADError.authenticationFailed) ∧
    (∀ body', body' ≠ (encrypt x k n).1.body →
      decrypt ⟨body', (encrypt x k n).1.tag⟩ k n =
        Except.error AEADError.authenticationFailed) := by
  have hdec : aeadDecrypt k n (aeadEncrypt k n (x.data.map Char.toNat)) =
      Except.ok (x.data.map Char.toNat) := by
    simp [aeadEncrypt, aeadDecrypt, maskBytes,
      maskBytesFrom_involution k n (x.data.map Char.toNat) 0]
  refine ⟨?_, ?_, ?_, ?_⟩
  · show (aeadDecrypt k n (aeadEncrypt k n (x.data.map Char.toNat))).map _ = _
    rw [hdec]
    show Except.ok (⟨(x.data.map Char.toNat).map Char.ofNat⟩ : String) = _
    rw [List.map_map, codepoints_roundtrip x]
  · intro k' hk
    simp [encrypt, decrypt, aeadEncrypt, aeadDecrypt, Except.map, Ne.symm hk]
  · intro n' hn
    simp [encrypt, decrypt, aeadEncrypt, aeadDecrypt, Except.map, Ne.symm hn]
  · intro body' hb
    have hb' : ¬ maskBytes k n (x.data.map Char.toNat) = body' := by
      simpa [encrypt, aeadEncrypt] using Ne.symm hb
    simp [encrypt, decrypt, aeadEncrypt, aeadDecrypt, Except.map, hb']

/-- Witness for C4 at a concrete plaintext, key, wrong key, wrong nonce
and tampered body. -/
theorem encryption_roundtrip_auth_witness :
    (decrypt (encrypt "Jane Doe" [1, 2] [3]).1 [1, 2] [3] = Except.ok "Jane Doe") ∧
    (decrypt (encrypt "Jane Doe" [1, 2] [3]).1 [9] [3] =
      Except.error AEADError.authenticationFailed) ∧
    (decrypt (encrypt "Jane Doe" [1, 2] [3]).1 [1, 2] [4] =
      Except.error AEADError.authenticationFailed) ∧
    (decrypt ⟨[0], (encrypt "Jane Doe" [1, 2] [3]).1.tag⟩ [1, 2] [3] =
      Except.error AEADError.authenticationFailed) :=
  ⟨(encryption_roundtrip_auth "Jane Doe" [1, 2] [3]).1,
   (encryption_roundtrip_auth "Jane Doe" [1, 2] [3]).2.1 [9] (by decide),
   (encryption_roundtrip_auth "Jane Doe" [1, 2] [3]).2.2.1 [4] (by decide),
   (encryption_roundtrip_auth "Jane Doe" [1, 2] [3]).2.2.2 [0] (by decide)⟩

/-- Anything already accumulated survives the injection scan. -/
theorem injection_fold_mono (text : List Char) (ps : List InjPattern) :
    ∀ (acc : List ThreatDetail) (t : ThreatDetail),
      t ∈ acc → t ∈ ps.foldl (injectionStep text) acc := by
  induction ps with
  | nil => intro acc t h; exact h
  | cons p rest ih =>
    intro acc t h
    simp only [List.foldl_cons]
    apply ih
    unfold injectionStep
    cases searchPattern p text with
    | none => exact h
    | some m => exact List.mem_append_left _ h

/-- Every threat produced by the injection scan comes from a matching
pattern of the table. -/
theorem injection_fold_mem (text : List Char) (ps : List InjPattern) :
    ∀ (acc : List ThreatDetail) (t : ThreatDetail),
      t ∈ ps.foldl (injectionStep text) acc →
      t ∈ acc ∨ ∃ p ∈ ps, ∃ m, searchPattern p text = some m ∧
        t = injectionThreat p m := by
  induction ps with
  | nil => intro acc t h; exact Or.inl h
  | cons p rest ih =>
    intro acc t h
    simp only [List.foldl_cons] at h
    rcases ih _ t h with hin | ⟨p', hp', m, hs, ht⟩
    · revert hin
      unfold injectionStep
      cases hsp : searchPattern p text with
      | none => intro hin; exact Or.inl hin
      | some m =>
        intro hin
        rcases List.mem_append.mp hin with h1 | h2
        · exact Or.inl h1
        · refine Or.inr ⟨p, List.mem_cons_self _ _, m, hsp, ?_⟩
          simpa using h2
    · exact Or.inr ⟨p', List.mem_cons_of_mem _ hp', m, hs, ht⟩

/-- A matching pattern always contributes its threat. -/
theorem injection_fold_exists (text : List Char) (ps : List InjPattern) :
    ∀ (acc : List ThreatDetail) (p : InjPattern) (m : List Char),
      p ∈ ps → searchPattern p text = some m →
      injectionThreat p m ∈ ps.foldl (injectionStep text) acc := by
  induction ps with
  | nil => intro _ _ _ hp _; cases hp
  | cons q rest ih =>
    intro acc p m hp hs
    simp only [List.foldl_cons]
    rcases List.mem_cons.mp hp with rfl | hp'
    · apply injection_fold_mono
      unfold injectionStep
      rw [hs]
      exact List.mem_append_right _ (List.mem_singleton_self _)
    · exact ih _ p m hp' hs

/-- With neither reserved delimiter present, the delimiter scan is
empty. -/
theorem delimiter_none (text : List Char)
    (hb : containsSub beginDelimiter.data text = false)
    (he : containsSub endDelimiter.data text = false) :
    detectDelimiterInjection text = [] := by
  simp [detectDelimiterInjection, delimiterStep, hb, he]

/-- Every delimiter threat has type `delimiter_injection`. -/
theorem delimiter_types (text : List Char) :
    ∀ t ∈ detectDelimiterInjection text, t.threat_type = "delimiter_injection" := by
  intro t ht
  unfold detectDelimiterInjection delimiterStep at ht
  by_cases hb : containsSub beginDelimiter.data text <;>
    by_cases he : containsSub endDelimiter.data text <;>
      simp [hb, he] at ht <;> rcases ht with rfl | rfl <;> rfl

/-- Homoglyph threats are always medium-severity homoglyph reports. -/
theorem homoglyph_fold_prop (text : List Char) (rows : List (Char × Char × String)) :
    ∀ (acc : List ThreatDetail × List Char),
      (∀ t ∈ acc.1, t.severity = "medium" ∧ t.threat_type = "homoglyph") →
      ∀ t ∈ (rows.foldl (homoglyphStep text) acc).1,
        t.severity = "medium" ∧ t.threat_type = "homoglyph" := by
  induction rows with
  | nil => intro acc hacc t ht; exact hacc t ht
  | cons row rest ih =>
    intro acc hacc t ht
    simp only [List.foldl_cons] at ht
    refine ih _ ?_ t ht
    intro u hu
    unfold homoglyphStep at hu
    by_cases hc : row.2.1 ∈ text ∧ row.2.1 ∉ acc.2
    · rw [if_pos hc] at hu
      rcases List.mem_append.mp hu with h1 | h2
      · exact hacc u h1
      · simp at h2
        subst h2
        exact ⟨rfl, rfl⟩
    · rw [if_neg hc] at hu
      exact hacc u hu

/-- Every threat of `_detect_homoglyphs` is a medium homoglyph report. -/
theorem detectHomoglyphs_prop (text : List Char) :
    ∀ t ∈ detectHomoglyphs text,
      t.severity = "medium" ∧ t.threat_type = "homoglyph" := by
  intro t ht
  unfold detectHomoglyphs at ht
  split at ht
  · cases ht
  · exact homoglyph_fold_prop text homoglyphTable ([], []) (by simp) t ht

/-- C2 counterexample: `sanitize "I am DAN"` (which matches only the
standalone-DAN row) reports a single prompt-injection threat of severity
"medium", and `is_safe` is true — not "high"/false as claimed. -/
theorem dan_severity_counterexample :
    (sanitize "I am DAN").threats =
      [{ threat_type := "prompt_injection"
         description := "Possible DAN jailbreak reference"
         severity := "medium", matched_pattern := "DAN" }] ∧
    (sanitize "I am DAN").is_safe = true := by decide

/-- C2 amended: a standalone-DAN match yields a prompt-injection threat of
severity "medium" (the `\bDAN\b` table row is medium and case-sensitive),
and when no high-severity pattern and no reserved delimiter matches the
cleaned text, `is_safe` remains true. -/
theorem dan_standalone_medium (text : String)
    (hhigh : ∀ p ∈ injectionPatterns, p.severity = "high" →
      searchPattern p (stripUnicodeThreats text.data) = none)
    (hb : containsSub beginDelimiter.data (stripUnicodeThreats text.data) = false)
    (he : containsSub endDelimiter.data (stripUnicodeThreats text.data) = false)
    (hdan : ∃ m, searchPattern danPattern (stripUnicodeThreats text.data) = some m) :
    (sanitize text).is_safe = true ∧
    ∃ t ∈ (sanitize text).threats, t.threat_type = "prompt_injection" ∧
      t.severity = "medium" ∧
      t.description = "Possible DAN jailbreak reference" := by
  obtain ⟨m, hm⟩ := hdan
  have hdanmem : danPattern ∈ injectionPatterns := by
    simp [injectionPatterns]
  have hthreats : (sanitize text).threats =
      detectHomoglyphs text.data ++
        detectPromptInjection (stripUnicodeThreats text.data) ++
        detectDelimiterInjection (stripUnicodeThreats text.data) := rfl
  constructor
  · show List.all _ _ = true
    rw [List.all_eq_true]
    intro t ht
    have hne : t.severity ≠ "high" := by
      rcases List.mem_append.mp ht with h12 | h3
      · rcases List.mem_append.mp h12 with h1 | h2
        · have := (detectHomoglyphs_prop text.data t h1).1
          rw [this]; decide
        · rcases injection_fold_mem _ _ _ t h2 with habs | ⟨p, hp, m', hs, rfl⟩
          · cases habs
          · show p.severity ≠ "high"
            intro hhigh'
            rw [hhigh p hp hhigh'] at hs
            cases hs
      · rw [delimiter_none _ hb he] at h3
        cases h3
    simpa using hne
  · refine ⟨injectionThreat danPattern m, ?_, rfl, rfl, rfl⟩
    rw [hthreats]
    exact List.mem_append_left _ (List.mem_append_right _
      (injection_fold_exists _ _ [] danPattern m hdanmem hm))

/-- Witness for C2 amended at the text "I am DAN". -/
theorem dan_standalone_medium_witness :
    (sanitize "I am DAN").is_safe = true ∧
    ∃ t ∈ (sanitize "I am DAN").threats, t.threat_type = "prompt_injection" ∧
      t.severity = "medium" ∧
      t.description = "Possible DAN jailbreak reference" :=
  dan_standalone_medium "I am DAN" (by decide) (by decide) (by decide)
    ⟨"DAN".data, by decide⟩

/-- The seen-set of the homoglyph scan only grows. -/
theorem homoglyph_fold_seen_mono (text : List Char)
    (rows : List (Char × Char × String)) :
    ∀ (acc : List ThreatDetail × List Char) (c : Char),
      c ∈ acc.2 → c ∈ (rows.foldl (homoglyphStep text) acc).2 := by
  induction rows with
  | nil => intro acc c h; exact h
  | cons row rest ih =>
    intro acc c h
    simp only [List.foldl_cons]
    apply ih
    unfold homoglyphStep
    split
    · exact List.mem_append_left _ h
    · exact h

/-- A look-alike present in the text and listed in the remaining rows ends
up in the seen-set. -/
theorem homoglyph_fold_mem_seen (text : List Char)
    (rows : List (Char × Char × String)) :
    ∀ (acc : List ThreatDetail × List Char) (row : Char × Char × String),
      row ∈ rows → row.2.1 ∈ text →
      row.2.1 ∈ (rows.foldl (homoglyphStep text) acc).2 := by
  induction rows with
  | nil => intro _ _ h; cases h
  | cons q rest ih =>
    intro acc row hrow hintext
    simp only [List.foldl_cons]
    rcases List.mem_cons.mp hrow with rfl | hrow'
    · apply homoglyph_fold_seen_mono
      unfold homoglyphStep
      by_cases hseen : row.2.1 ∈ acc.2
      · split
        · exact List.mem_append_left _ hseen
        · exact hseen
      · rw [if_pos ⟨hintext, hseen⟩]
        exact List.mem_append_right _ (List.mem_singleton_self _)
    · exact ih _ row hrow' hintext

/-- Invariant of the homoglyph scan: a look-alike in the seen-set has a
matching threat in the accumulator. -/
theorem homoglyph_fold_invariant (text : List Char) (look : Char)
    (rows : List (Char × Char × String)) :
    ∀ (acc : List ThreatDetail × List Char),
      (look ∈ acc.2 → ∃ t ∈ acc.1, t.threat_type = "homoglyph" ∧
        t.severity = "medium" ∧ t.matched_pattern = look.toString) →
      look ∈ (rows.foldl (homoglyphStep text) acc).2 →
      ∃ t ∈ (rows.foldl (homoglyphStep text) acc).1,
        t.threat_type = "homoglyph" ∧ t.severity = "medium" ∧
        t.matched_pattern = look.toString := by
  induction rows with
  | nil => intro acc hacc h; exact hacc h
  | cons row rest ih =>
    intro acc hacc h
    simp only [List.foldl_cons] at h ⊢
    refine ih _ ?_ h
    intro hseen
    unfold homoglyphStep at hseen ⊢
    by_cases hcond : row.2.1 ∈ text ∧ row.2.1 ∉ acc.2
    · rw [if_pos hcond] at hseen ⊢
      rcases List.mem_append.mp hseen with h1 | h2
      · obtain ⟨t, ht, hprops⟩ := hacc h1
        exact ⟨t, List.mem_append_left _ ht, hprops⟩
      · have : look = row.2.1 := by simpa using h2
        subst this
        refine ⟨_, List.mem_append_right _ (List.mem_singleton_self _), rfl, rfl, rfl⟩
    · rw [if_neg hcond] at hseen ⊢
      exact hacc hseen

/-- No listed look-alike is a stripped character. -/
theorem homoglyphTable_not_stripped :
    ∀ r ∈ homoglyphTable, isStrippedChar r.2.1 = false := by decide

/-- C10: the sanitiser reports homoglyphs but never removes them — a
listed look-alike that NFKC leaves in place is still in `cleaned_text`,
its threat has severity "medium", and a text whose threats are all
homoglyphs keeps `is_safe` true. -/
theorem homoglyph_report_only (text : String) (latin look : Char) (script : String)
    (hrow : (latin, look, script) ∈ homoglyphTable)
    (hintext : look ∈ text.data)
    (hlatin : text.data.any isAsciiLetter = true)
    (hnfkc : look ∈ nfkc text.data) :
    (look ∈ (sanitize text).cleaned_text.data) ∧
    (∃ t ∈ (sanitize text).threats, t.threat_type = "homoglyph" ∧
      t.severity = "medium" ∧ t.matched_pattern = look.toString) ∧
    ((∀ t ∈ (sanitize text).threats, t.threat_type = "homoglyph") →
      (sanitize text).is_safe = true) := by
  have hnotstripped : isStrippedChar look = false :=
    homoglyphTable_not_stripped (latin, look, script) hrow
  have hhomo : ∃ t ∈ detectHomoglyphs text.data, t.threat_type = "homoglyph" ∧
      t.severity = "medium" ∧ t.matched_pattern = look.toString := by
    unfold detectHomoglyphs
    rw [if_neg (by simp [hlatin])]
    refine homoglyph_fold_invariant text.data look homoglyphTable ([], [])
      (by intro h; cases h) ?_
    exact homoglyph_fold_mem_seen text.data homoglyphTable ([], [])
      (latin, look, script) hrow hintext
  refine ⟨?_, ?_, ?_⟩
  · show look ∈ (stripUnicodeThreats text.data)
    unfold stripUnicodeThreats
    rw [List.mem_filter]
    exact ⟨hnfkc, by simp [hnotstripped]⟩
  · obtain ⟨t, ht, hprops⟩ := hhomo
    exact ⟨t, List.mem_append_left _ (List.mem_append_left _ ht), hprops⟩
  · intro hall
    show List.all _ _ = true
    rw [List.all_eq_true]
    intro t ht
    have hne : t.severity ≠ "high" := by
      rcases List.mem_append.mp ht with h12 | h3
      · rcases List.mem_append.mp h12 with h1 | h2
        · rw [(detectHomoglyphs_prop text.data t h1).1]; decide
        · rcases injection_fold_mem _ _ _ t h2 with habs | ⟨p, _, m', _, rfl⟩
          · cases habs
          · have := hall _ ht
            simp [injectionThreat] at this
      · have := delimiter_types _ t h3
        have h2 := hall _ ht
        rw [this] at h2
        exact absurd h2 (by decide)
    simpa using hne

/-- Witness for C10 at the text "dаta" (Cyrillic а U+0430). -/
theorem homoglyph_report_only_witness :
    let text : String := ⟨['d', Char.ofNat 0x430, 't', 'a']⟩
    (Char.ofNat 0x430 ∈ (sanitize text).cleaned_text.data) ∧
    (∃ t ∈ (sanitize text).threats, t.threat_type = "homoglyph" ∧
      t.severity = "medium" ∧
      t.matched_pattern = (Char.ofNat 0x430).toString) ∧
    ((∀ t ∈ (sanitize text).threats, t.threat_type = "homoglyph") →
      (sanitize text).is_safe = true) :=
  homoglyph_report_only ⟨['d', Char.ofNat 0x430, 't', 'a']⟩ 'a'
    (Char.ofNat 0x430) "Cyrillic" (by decide) (by decide) (by decide) (by decide)

/-- A character that is inert for the NFKC model: no decomposition,
combining class 0, and no role in any canonical composition. -/
def InertChar (c : Char) : Prop :=
  decompChar c = [c] ∧ ccc c = 0 ∧
    ∀ e ∈ compTable, e.1.1 ≠ c.toNat ∧ e.1.2 ≠ c.toNat

instance (c : Char) : Decidable (InertChar c) := by
  unfold InertChar; infer_instance

/-- An inert character composes with nothing on its left. -/
theorem composePair_eq_none_left (st c : Char) (h : InertChar st) :
    composePair st c = none := by
  unfold composePair
  rw [List.find?_eq_none.mpr]
  · rfl
  · intro e he
    simp only [decide_eq_true_eq]
    intro ⟨h1, _⟩
    exact absurd h1 (h.2.2 e he).1

/-- Decomposition is the identity on inert strings. -/
theorem flatMap_decomp_inert (l : List Char) (h : ∀ c ∈ l, InertChar c) :
    l.flatMap decompChar = l := by
  induction l with
  | nil => rfl
  | cons c rest ih =>
    simp only [List.flatMap_cons]
    rw [(h c (List.mem_cons_self _ _)).1,
      ih (fun d hd => h d (List.mem_cons_of_mem _ hd))]
    rfl

/-- Canonical ordering is the identity on sequences of starters. -/
theorem canonicalOrderAux_starters (fuel : Nat) :
    ∀ (l : List Char), (∀ c ∈ l, ccc c = 0) → canonicalOrderAux fuel l = l := by
  induction fuel with
  | zero => intro l _; rfl
  | succ f ih =>
    intro l h
    cases l with
    | nil => rfl
    | cons c rest =>
      have hc : ccc c = 0 := h c (List.mem_cons_self _ _)
      have hrest := ih rest (fun d hd => h d (List.mem_cons_of_mem _ hd))
      simp [canonicalOrderAux, hc, hrest]

/-- Canonical composition is the identity on inert sequences. -/
theorem composeAux_inert :
    ∀ (l : List Char) (st : Char) (fuel : Nat), l.length ≤ fuel →
      InertChar st → (∀ c ∈ l, InertChar c) →
      composeAux fuel st [] l = st :: l := by
  intro l
  induction l with
  | nil => intro st fuel _ _ _; cases fuel <;> rfl
  | cons c rest ih =>
    intro st fuel hfuel hst h
    cases fuel with
    | zero => exact absurd hfuel (by simp)
    | succ f =>
      have hc : InertChar c := h c (List.mem_cons_self _ _)
      unfold composeAux
      rw [if_pos hc.2.1, composePair_eq_none_left st c hst]
      simp only [List.reverse_nil, List.nil_append]
      rw [ih c f (Nat.le_of_succ_le_succ hfuel) hc
        (fun d hd => h d (List.mem_cons_of_mem _ hd))]
      rfl

/-- The NFKC model is the identity on inert strings. -/
theorem nfkc_inert (l : List Char) (h : ∀ c ∈ l, InertChar c) : nfkc l = l := by
  unfold nfkc canonicalOrder
  rw [flatMap_decomp_inert l h,
    canonicalOrderAux_starters l.length l (fun c hc => (h c hc).2.1)]
  cases l with
  | nil => rfl
  | cons c rest =>
    unfold canonicalCompose
    exact composeAux_inert rest c rest.length (Nat.le_refl _)
      (h c (List.mem_cons_self _ _))
      (fun d hd => h d (List.mem_cons_of_mem _ hd))

/-- C7 counterexample: on `a` + ZWNJ (U+200C) + COMBINING ACUTE (U+0301),
stripping the ZWNJ unblocks the canonical composition `a + ́ → á`, so a
second cleaning pass changes the text again. -/
theorem sanitize_not_idempotent_counterexample :
    (sanitize ((sanitize (⟨['a', Char.ofNat 0x200C, Char.ofNat 0x301]⟩ :
        String)).cleaned_text)).cleaned_text ≠
      (sanitize (⟨['a', Char.ofNat 0x200C, Char.ofNat 0x301]⟩ :
        String)).cleaned_text := by decide

/-- C7 amended: the cleaning pass is idempotent on inputs whose characters
are all NFKC-inert (no decomposition, class 0, no composition role) — in
particular on all plain ASCII texts; in general a second pass may
renormalise after stripping unblocks a composition. -/
theorem sanitize_idempotent_on_inert (x : String)
    (h : ∀ c ∈ x.data, InertChar c) :
    (sanitize ((sanitize x).cleaned_text)).cleaned_text =
      (sanitize x).cleaned_text := by
  have hclean1 : (sanitize x).cleaned_text.data =
      x.data.filter (fun c => ¬ isStrippedChar c) := by
    show stripUnicodeThreats x.data = _
    unfold stripUnicodeThreats
    rw [nfkc_inert x.data h]
  have hinert2 : ∀ c ∈ (sanitize x).cleaned_text.data, InertChar c := by
    rw [hclean1]
    intro c hc
    exact h c (List.mem_of_mem_filter hc)
  apply String.ext
  show stripUnicodeThreats (sanitize x).cleaned_text.data =
    (sanitize x).cleaned_text.data
  unfold stripUnicodeThreats
  rw [nfkc_inert _ hinert2, hclean1, List.filter_filter]
  apply List.filter_congr
  intro c _
  simp

/-- Witness for C7 amended at the (all-ASCII, hence inert) text
"Hello World". -/
theorem sanitize_idempotent_on_inert_witness :
    (∀ c ∈ ("Hello World" : String).data, InertChar c) ∧
    (sanitize ((sanitize "Hello World").cleaned_text)).cleaned_text =
      (sanitize "Hello World").cleaned_text :=
  ⟨by decide, sanitize_idempotent_on_inert "Hello World" (by decide)⟩

/-- Processing one span never changes the entry keys, the counters or the
reverse map. -/
theorem resolveOne_preserves (v : Vault) (e : PIIEntity) (v' : Vault)
    (h : resolveOneEntity v e = some v') :
    v'.entries.map (·.1) = v.entries.map (·.1) ∧ v'.counters = v.counters ∧
      v'.reverse = v.reverse := by
  unfold resolveOneEntity at h
  split at h
  · cases h; exact ⟨rfl, rfl, rfl⟩
  · split at h
    · cases h; exact ⟨rfl, rfl, rfl⟩
    · split at h
      · split at h
        · cases h
        · next v2 hv2 =>
          cases h
          unfold Vault.add_alias at hv2
          split at hv2
          · cases hv2
          · next entry hent =>
            cases hv2
            refine ⟨?_, rfl, rfl⟩
            exact dSet_keys_of_mem v.entries _ _ (by rw [hent]; simp)
      · cases h; exact ⟨rfl, rfl, rfl⟩

/-- Folding the span resolution over `none` stays `none`. -/
theorem resolve_fold_none (es : List PIIEntity) :
    es.foldl
      (fun acc e =>
        acc.bind (fun st => (resolveOneEntity st.2 e).map
          (fun v2 => (st.1 ++ [e], v2))))
      none = none := by
  induction es with
  | nil => rfl
  | cons e rest ih => simpa using ih

/-- The span-resolution fold returns the accumulated spans plus the inputs
and preserves entry keys, counters and reverse map. -/
theorem resolve_fold_props (es : List PIIEntity) :
    ∀ (acc : List PIIEntity × Vault) (out : List PIIEntity × Vault),
      es.foldl
        (fun acc e =>
          acc.bind (fun st => (resolveOneEntity st.2 e).map
            (fun v2 => (st.1 ++ [e], v2))))
        (some acc) = some out →
      out.1 = acc.1 ++ es ∧
        out.2.entries.map (·.1) = acc.2.entries.map (·.1) ∧
        out.2.counters = acc.2.counters ∧ out.2.reverse = acc.2.reverse := by
  induction es with
  | nil =>
    intro acc out h
    cases h
    exact ⟨(List.append_nil _).symm, rfl, rfl, rfl⟩
  | cons e rest ih =>
    intro acc out h
    simp only [List.foldl_cons, Option.some_bind] at h
    cases hr : resolveOneEntity acc.2 e with
    | none =>
      rw [hr] at h
      simp only [Option.map_none'] at h
      rw [resolve_fold_none rest] at h
      cases h
    | some v2 =>
      rw [hr] at h
      simp only [Option.map_some'] at h
      obtain ⟨h1, h2, h3, h4⟩ := ih (acc.1 ++ [e], v2) out h
      obtain ⟨k1, k2, k3⟩ := resolveOne_preserves acc.2 e v2 hr
      exact ⟨by simpa using h1, h2.trans k1, h3.trans k2, h4.trans k3⟩

/-- A match found by the scanning strategies (not the exact lookup) always
has the requested entity type. -/
theorem findMatchLoop_type (v : Vault) (normText : String)
    (tokens : List (List Char)) (ty : String) :
    ∀ (fwd : List (String × String)) (p : String),
      findMatchLoop v normText tokens ty fwd = some p →
      ∃ entry, dGet v.entries p = some entry ∧ entry.entity_type = ty := by
  intro fwd
  induction fwd with
  | nil => intro p h; cases h
  | cons pr rest ih =>
    intro p h
    unfold findMatchLoop at h
    split at h
    · exact ih p h
    · split at h
      · exact ih p h
      · next entry hent =>
        split at h
        · exact ih p h
        · next hty =>
          dsimp only at h
          split at h
          · cases h; exact ⟨entry, hent, not_not.mp (by simpa using hty)⟩
          · split at h
            · cases h; exact ⟨entry, hent, not_not.mp (by simpa using hty)⟩
            · exact ih p h

/-- When no span matches, the resolution fold carries the vault through
unchanged, appending the spans. -/
theorem resolve_fold_id (v : Vault) :
    ∀ (es : List PIIEntity) (pre : List PIIEntity),
      (∀ e ∈ es, findMatch v e.text e.label = none) →
      es.foldl
        (fun acc e =>
          acc.bind (fun st => (resolveOneEntity st.2 e).map
            (fun v2 => (st.1 ++ [e], v2))))
        (some (pre, v)) = some (pre ++ es, v) := by
  intro es
  induction es with
  | nil => intro pre _; simp
  | cons e rest ih =>
    intro pre hall
    simp only [List.foldl_cons, Option.some_bind]
    have he : resolveOneEntity v e = some v := by
      unfold resolveOneEntity
      rw [hall e (List.mem_cons_self _ _)]
    rw [he]
    simp only [Option.map_some']
    rw [ih (pre ++ [e]) (fun e' he' => hall e' (List.mem_cons_of_mem _ he'))]
    simp

/-- C6 counterexample: the exact forward-map lookup of `_find_match`
ignores entity types — a vault entry of type ORG matches a span labelled
PERSON. -/
theorem entity_mapper_exact_type_counterexample :
    (findMatch (((Vault.new [] []).add_entity "Acme" "ORG").2) "Acme" "PERSON" =
      some "[ORG_1]") ∧
    ((dGet (((Vault.new [] []).add_entity "Acme" "ORG").2).entries
      "[ORG_1]").map (·.entity_type) = some "ORG") := by decide

/-- C6 amended: `resolve_prompt_entities` never creates a vault entry and
never touches the counters or the reverse map, and returns the spans
unchanged; the normalised and token-overlap strategies only match entries
of the span's entity type (the exact forward-map lookup does not check
the type); and when no span matches, the vault is left entirely
unchanged. -/
theorem entity_mapper_invariants :
    (∀ (v : Vault) (es : List PIIEntity) (out : List PIIEntity × Vault),
      resolvePromptEntities v es = some out →
      out.1 = es ∧ out.2.entries.map (·.1) = v.entries.map (·.1) ∧
        out.2.counters = v.counters ∧ out.2.reverse = v.reverse) ∧
    (∀ (v : Vault) (text ty p : String),
      v.get_pseudonym text = none → findMatch v text ty = some p →
      ∃ entry, dGet v.entries p = some entry ∧ entry.entity_type = ty) ∧
    (∀ (v : Vault) (es : List PIIEntity),
      (∀ e ∈ es, findMatch v e.text e.label = none) →
      resolvePromptEntities v es = some (es, v)) := by
  refine ⟨?_, ?_, ?_⟩
  · intro v es out h
    obtain ⟨h1, h2, h3, h4⟩ := resolve_fold_props es ([], v) out h
    exact ⟨by simpa using h1, h2, h3, h4⟩
  · intro v text ty p hget hfind
    unfold findMatch at hfind
    rw [show v.get_pseudonym text = none from hget] at hfind
    exact findMatchLoop_type v _ _ ty v.forward p hfind
  · intro v es hall
    unfold resolvePromptEntities
    simpa using resolve_fold_id v es [] hall

/-- Witness for C6 at a vault holding "Jane Smith" as `[PERSON_1]`: a
titled variant of the name matches an entry of its own type, a
never-seen name matches nothing and leaves the vault untouched. -/
theorem entity_mapper_invariants_witness :
    (∃ entry,
      dGet (((Vault.new [] []).add_entity "Jane Smith" "PERSON").2).entries
        "[PERSON_1]" = some entry ∧ entry.entity_type = "PERSON") ∧
    (resolvePromptEntities (((Vault.new [] []).add_entity "Jane Smith" "PERSON").2)
      [⟨"Bob", "PERSON", 0, 3, ⟨8, 10⟩, "ner"⟩] =
      some ([⟨"Bob", "PERSON", 0, 3, ⟨8, 10⟩, "ner"⟩],
        ((Vault.new [] []).add_entity "Jane Smith" "PERSON").2)) ∧
    (([⟨"Bob", "PERSON", 0, 3, (⟨8, 10⟩ : PyFloat), "ner"⟩] :
        List PIIEntity) = [⟨"Bob", "PERSON", 0, 3, ⟨8, 10⟩, "ner"⟩]) := by
  refine ⟨?_, ?_, ?_⟩
  · exact entity_mapper_invariants.2.1
      (((Vault.new [] []).add_entity "Jane Smith" "PERSON").2)
      "Dr. Jane Smith" "PERSON" "[PERSON_1]" (by decide) (by decide)
  · exact entity_mapper_invariants.2.2
      (((Vault.new [] []).add_entity "Jane Smith" "PERSON").2)
      [⟨"Bob", "PERSON", 0, 3, ⟨8, 10⟩, "ner"⟩]
      (by intro e he; rw [List.mem_singleton.mp he]; decide)
  · exact (entity_mapper_invariants.1
      (((Vault.new [] []).add_entity "Jane Smith" "PERSON").2)
      [⟨"Bob", "PERSON", 0, 3, ⟨8, 10⟩, "ner"⟩]
      ([⟨"Bob", "PERSON", 0, 3, ⟨8, 10⟩, "ner"⟩],
        ((Vault.new [] []).add_entity "Jane Smith" "PERSON").2)
      (entity_mapper_invariants.2.2 _ _
        (by intro e he; rw [List.mem_singleton.mp he]; decide))).1

/-- Code point of a decimal digit character. -/
theorem digitChar_toNat (d : Nat) (h : d < 10) : (digitChar d).toNat = 48 + d := by
  interval_cases d <;> decide

/-- A decimal digit character is a digit. -/
theorem digitChar_isDigit (d : Nat) (h : d < 10) :
    isDigitChar (digitChar d) = true := by
  interval_cases d <;> decide

/-- Printing zero appends nothing. -/
theorem natReprAux_zero (f : Nat) (acc : List Char) : natReprAux f 0 acc = acc := by
  cases f <;> simp [natReprAux]

/-- The accumulator of the decimal printer is a suffix. -/
theorem natReprAux_acc :
    ∀ (f n : Nat) (acc : List Char),
      natReprAux f n acc = natReprAux f n [] ++ acc := by
  intro f
  induction f with
  | zero => intro n acc; rfl
  | succ f ih =>
    intro n acc
    by_cases hn : n = 0
    · subst hn; simp [natReprAux]
    · simp only [natReprAux, if_neg hn]
      rw [ih (n / 10) (digitChar (n % 10) :: acc), ih (n / 10) [digitChar (n % 10)]]
      simp

/-- The decimal printer ignores surplus fuel. -/
theorem natReprAux_fuel :
    ∀ (f1 f2 n : Nat) (acc : List Char), n ≤ f1 → n ≤ f2 →
      natReprAux f1 n acc = natReprAux f2 n acc := by
  intro f1
  induction f1 with
  | zero =>
    intro f2 n acc h1 _
    have : n = 0 := Nat.le_zero.mp h1
    subst this
    rw [natReprAux_zero, natReprAux_zero]
  | succ f ih =>
    intro f2 n acc h1 h2
    by_cases hn : n = 0
    · subst hn; rw [natReprAux_zero, natReprAux_zero]
    · cases f2 with
      | zero => omega
      | succ g =>
        simp only [natReprAux, if_neg hn]
        have hlt : n / 10 < n := Nat.div_lt_self (Nat.pos_of_ne_zero hn) (by norm_num)
        exact ih g (n / 10) _ (by omega) (by omega)

/-- Appending one digit multiplies the value by ten. -/
theorem digitsVal_append_singleton (A : List Char) (c : Char) :
    digitsVal (A ++ [c]) = 10 * digitsVal A + (c.toNat - 48) := by
  unfold digitsVal
  rw [List.foldl_append]
  rfl

/-- The core decimal printer produces the digits of its input. -/
theorem natReprCore_spec :
    ∀ n : Nat, digitsVal (natReprAux n n []) = n ∧
      ∀ c ∈ natReprAux n n [], isDigitChar c = true := by
  intro n
  induction n using Nat.strong_induction_on with
  | _ n ih =>
    match n with
    | 0 => exact ⟨rfl, by intro c hc; cases hc⟩
    | m + 1 =>
      have hq : (m + 1) / 10 < m + 1 :=
        Nat.div_lt_self (Nat.succ_pos m) (by norm_num)
      have hstep : natReprAux (m + 1) (m + 1) [] =
          natReprAux ((m + 1) / 10) ((m + 1) / 10) [] ++
            [digitChar ((m + 1) % 10)] := by
        have h1 : natReprAux (m + 1) (m + 1) [] =
            natReprAux m ((m + 1) / 10) [digitChar ((m + 1) % 10)] := by
          simp [natReprAux]
        rw [h1, natReprAux_fuel m ((m + 1) / 10) ((m + 1) / 10) _
          (by omega) (Nat.le_refl _), natReprAux_acc]
      obtain ⟨ihv, ihd⟩ := ih ((m + 1) / 10) hq
      constructor
      · rw [hstep, digitsVal_append_singleton, ihv,
          digitChar_toNat _ (Nat.mod_lt _ (by norm_num))]
        omega
      · rw [hstep]
        intro c hc
        rcases List.mem_append.mp hc with h1 | h2
        · exact ihd c h1
        · rw [List.mem_singleton.mp h2]
          exact digitChar_isDigit _ (Nat.mod_lt _ (by norm_num))

/-- The decimal rendering of `n` is a nonempty digit string with value
`n`. -/
theorem natRepr_spec (n : Nat) :
    digitsVal (natRepr n).data = n ∧
      (∀ c ∈ (natRepr n).data, isDigitChar c = true) ∧
      (natRepr n).data ≠ [] := by
  unfold natRepr
  by_cases hn : n = 0
  · subst hn
    refine ⟨by decide, by decide, by decide⟩
  · rw [if_neg hn]
    obtain ⟨hv, hd⟩ := natReprCore_spec n
    refine ⟨hv, hd, ?_⟩
    intro h
    have h' : natReprAux n n [] = [] := h
    rw [h'] at hv
    exact hn (by simpa [digitsVal] using hv.symm)

/-- A digit character is not Python whitespace. -/
theorem digit_not_ws (c : Char) (h : isDigitChar c = true) : isPyWs c = false := by
  simp only [isDigitChar, decide_eq_true_eq] at h
  simp only [isPyWs, decide_eq_false_iff_not]
  rintro (rfl | h9 | h9 | h9 | h9 | h9) <;> first | simp at h | omega

/-- A digit character is neither a minus nor a plus sign. -/
theorem digit_not_sign (c : Char) (h : isDigitChar c = true) :
    c ≠ '-' ∧ c ≠ '+' := by
  simp only [isDigitChar, decide_eq_true_eq] at h
  constructor <;> rintro rfl <;> simp at h

/-- `int()` of a nonempty digit string is its decimal value. -/
theorem pyInt_digits (l : List Char) (hne : l ≠ [])
    (hd : ∀ c ∈ l, isDigitChar c = true) :
    pyInt l = some ((digitsVal l : Nat) : Int) := by
  obtain ⟨c, rest, rfl⟩ := List.exists_cons_of_ne_nil hne
  have hc := hd c (List.mem_cons_self _ _)
  have hstrip : pyIntStrip (c :: rest) = c :: rest := by
    unfold pyIntStrip
    rw [List.dropWhile_cons, digit_not_ws c hc]
    simp only [Bool.false_eq_true, if_false]
    cases hrev : (c :: rest).reverse with
    | nil => exact absurd (List.reverse_eq_nil_iff.mp hrev) (by simp)
    | cons r1 rr =>
      have hr1 : r1 ∈ c :: rest := by
        rw [← List.mem_reverse, hrev]
        exact List.mem_cons_self _ _
      rw [List.dropWhile_cons, digit_not_ws r1 (hd r1 hr1)]
      simp only [Bool.false_eq_true, if_false]
      rw [← hrev, List.reverse_reverse]
  have hsign : pyIntSign (c :: rest) = (false, c :: rest) := by
    show (if c = '-' then ((true, rest) : Bool × List Char)
      else if c = '+' then (false, rest) else (false, c :: rest)) =
      (false, c :: rest)
    rw [if_neg (digit_not_sign c hc).1, if_neg (digit_not_sign c hc).2]
  unfold pyInt
  rw [hstrip, hsign]
  rw [if_pos ⟨by simp, List.all_eq_true.mpr hd⟩]
  simp

/-- `takeWhile` passes over an all-satisfying prefix. -/
theorem takeWhile_append_all (p : Char → Bool) (A B : List Char)
    (h : ∀ a ∈ A, p a = true) :
    (A ++ B).takeWhile p = A ++ B.takeWhile p := by
  induction A with
  | nil => simp
  | cons x xs ih =>
    simp [List.takeWhile, h x (List.mem_cons_self _ _),
      ih (fun a ha => h a (List.mem_cons_of_mem _ ha))]

/-- `dropWhile` passes over an all-satisfying prefix. -/
theorem dropWhile_append_all (p : Char → Bool) (A B : List Char)
    (h : ∀ a ∈ A, p a = true) :
    (A ++ B).dropWhile p = B.dropWhile p := by
  induction A with
  | nil => simp
  | cons x xs ih =>
    simp [List.dropWhile, h x (List.mem_cons_self _ _),
      ih (fun a ha => h a (List.mem_cons_of_mem _ ha))]

/-- A digit character is not a bracket. -/
theorem digit_not_bracket (c : Char) (h : isDigitChar c = true) :
    (decide (c ∈ (['[', ']'] : List Char))) = false := by
  simp only [isDigitChar, decide_eq_true_eq] at h
  simp only [decide_eq_false_iff_not, List.mem_cons, List.not_mem_nil, or_false,
    not_or]
  constructor <;> rintro rfl <;> simp at h

/-- Stripping a set off a bracketed payload whose own edges avoid the set
leaves the payload. -/
theorem strip_bracketed (set : List Char) (c : Char) (rest : List Char)
    (dl : Char) (dr : List Char)
    (hrev : (c :: rest).reverse = dl :: dr)
    (hc : decide (c ∈ set) = false) (hdl : decide (dl ∈ set) = false)
    (hopen : decide ('[' ∈ set) = true) (hclose : decide (']' ∈ set) = true) :
    pyStripChars set ('[' :: ((c :: rest) ++ [']'])) = c :: rest := by
  unfold pyStripChars
  rw [List.dropWhile_cons]
  simp only [hopen, if_true]
  rw [show (c :: rest) ++ [']'] = c :: (rest ++ [']']) from rfl]
  rw [List.dropWhile_cons]
  simp only [hc, Bool.false_eq_true, if_false]
  rw [show c :: (rest ++ [']']) = (c :: rest) ++ [']'] from rfl,
    List.reverse_append, hrev]
  simp only [List.reverse_cons, List.reverse_nil, List.nil_append,
    List.singleton_append]
  rw [List.dropWhile_cons]
  simp only [hclose, if_true]
  rw [List.dropWhile_cons]
  simp only [hdl, Bool.false_eq_true, if_false]
  rw [← hrev, List.reverse_reverse]

/-- Stripping the brackets of a well-formed pseudonym leaves
`TYPE_digits`. -/
theorem pyStrip_mk (T : String) (n : Nat) (hT : goodTypeB T = true) :
    pyStripChars ['[', ']'] (mkPseudonym T n).data =
      T.data ++ '_' :: (natRepr n).data := by
  obtain ⟨hv, hdig, hne⟩ := natRepr_spec n
  cases hTd : T.data with
  | nil => rw [goodTypeB, hTd] at hT; cases hT
  | cons c T' =>
    have hc : c ≠ '[' ∧ c ≠ ']' := by
      rw [goodTypeB, hTd] at hT
      simpa using hT
    have hcb : (decide (c ∈ (['[', ']'] : List Char))) = false := by
      simp [hc.1, hc.2]
    have hDrevne : (natRepr n).data.reverse ≠ [] := by simpa using hne
    obtain ⟨dl, dr, hDrev⟩ := List.exists_cons_of_ne_nil hDrevne
    have hdl : dl ∈ (natRepr n).data := by
      rw [← List.mem_reverse, hDrev]
      exact List.mem_cons_self _ _
    have hdlb := digit_not_bracket dl (hdig dl hdl)
    have hdata : (mkPseudonym T n).data =
        '[' :: ((c :: (T' ++ '_' :: (natRepr n).data)) ++ [']']) := by
      show ("[" ++ T ++ "_" ++ natRepr n ++ "]").data = _
      simp [hTd]
    have hrev : (c :: (T' ++ '_' :: (natRepr n).data)).reverse =
        dl :: (dr ++ '_' :: (c :: T').reverse) := by
      rw [show c :: (T' ++ '_' :: (natRepr n).data) =
        (c :: T') ++ ('_' :: (natRepr n).data) from rfl, List.reverse_append]
      simp [hDrev]
    rw [hdata, strip_bracketed _ _ _ dl (dr ++ '_' :: (c :: T').reverse) hrev
      hcb hdlb (by decide) (by decide)]
    rfl

/-- A digit character is not an underscore. -/
theorem digit_not_underscore (c : Char) (h : isDigitChar c = true) :
    (decide ¬(c = '_')) = true := by
  simp only [isDigitChar, decide_eq_true_eq] at h
  simp only [decide_eq_true_eq]
  rintro rfl
  simp at h

/-- `rsplit("_", 1)` splits a `TYPE_digits` payload at the final
underscore. -/
theorem rsplitOnce_mk (T D : List Char) (_hDne : D ≠ [])
    (hD : ∀ c ∈ D, isDigitChar c = true) :
    rsplitOnce '_' (T ++ '_' :: D) = some (T, D) := by
  have hDrevAll : ∀ c ∈ D.reverse, (decide ¬(c = '_')) = true := by
    intro c hc
    exact digit_not_underscore c (hD c (List.mem_reverse.mp hc))
  unfold rsplitOnce
  rw [List.reverse_append,
    show (('_' :: D).reverse ++ T.reverse) = D.reverse ++ ('_' :: T.reverse) by
      simp]
  rw [List.span_eq_take_drop,
    takeWhile_append_all _ _ _ hDrevAll, dropWhile_append_all _ _ _ hDrevAll]
  simp [List.takeWhile, List.dropWhile]

/-- Parsing a well-formed pseudonym recovers its type and number. -/
theorem parse_mk (T : String) (n : Nat) (hT : goodTypeB T = true) :
    parsePseudonymCounter (mkPseudonym T n) = some (T, some (n : Int)) := by
  obtain ⟨hv, hdig, hne⟩ := natRepr_spec n
  unfold parsePseudonymCounter
  rw [pyStrip_mk T n hT]
  dsimp only
  rw [rsplitOnce_mk T.data _ hne hdig]
  show some ((⟨T.data⟩ : String), pyInt (natRepr n).data) = _
  rw [pyInt_digits _ hne hdig, hv]

/-- Re-registering aliases does not affect other forward keys. -/
theorem alias_fold_get (aliases : List String) (p : String) (r : String) :
    ∀ (f : List (String × String)), r ∉ aliases →
      dGet (aliases.foldl (fun f a => dSet f a p) f) r = dGet f r := by
  induction aliases with
  | nil => intro f _; rfl
  | cons a rest ih =>
    intro f h
    simp only [List.foldl_cons]
    rw [ih _ (fun hr => h (List.mem_cons_of_mem _ hr))]
    exact dGet_dSet_ne f r a p (fun he => h (he ▸ List.mem_cons_self _ _))

/-- The forward map after one load step, at a key that is not one of the
entry's aliases. -/
theorem loadStep_forward (v : Vault) (e : VaultEntry) (r : String)
    (h : r ∉ e.aliases) :
    dGet (loadStep v e).forward r =
      dGet (dSet v.forward e.real_value e.pseudonym) r := by
  unfold loadStep
  split
  · exact alias_fold_get e.aliases e.pseudonym r _ h
  · rfl
  · dsimp only
    split
    · exact alias_fold_get e.aliases e.pseudonym r _ h
    · exact alias_fold_get e.aliases e.pseudonym r _ h

/-- The forward map after a bulk load: the last entry carrying a real
value wins (absent alias shadowing). -/
theorem load_forward (entries : List VaultEntry) :
    ∀ (v : Vault) (r : String), (∀ e ∈ entries, r ∉ e.aliases) →
      dGet (entries.foldl loadStep v).forward r =
        (match entries.reverse.find? (fun e => e.real_value == r) with
         | some e => some e.pseudonym
         | none => dGet v.forward r) := by
  induction entries with
  | nil => intro v r _; rfl
  | cons e rest ih =>
    intro v r hal
    simp only [List.foldl_cons, List.reverse_cons, List.find?_append]
    rw [ih (loadStep v e) r (fun e' he' => hal e' (List.mem_cons_of_mem _ he'))]
    cases hf : rest.reverse.find? (fun e => e.real_value == r) with
    | some e' => simp [hf]
    | none =>
      simp only [hf, Option.none_or]
      rw [loadStep_forward v e r (hal e (List.mem_cons_self _ _))]
      by_cases hre : e.real_value = r
      · subst hre
        rw [dGet_dSet_self]
        simp [List.find?]
      · rw [dGet_dSet_ne _ _ _ _ (Ne.symm hre)]
        rw [show List.find? (fun e => e.real_value == r) [e] = none by
          simp [List.find?_cons, hre]]

/-- The counter of a type after a bulk load is the running maximum of the
parsed numbers of that type. -/
theorem load_counters (entries : List VaultEntry) :
    ∀ (v : Vault) (T : String),
      (dGet (entries.foldl loadStep v).counters T).getD 0 =
        maxParsedFrom T ((dGet v.counters T).getD 0) entries := by
  induction entries with
  | nil => intro v T; rfl
  | cons e rest ih =>
    intro v T
    simp only [List.foldl_cons]
    rw [ih (loadStep v e) T]
    have hstep : (dGet (loadStep v e).counters T).getD 0 =
        (match parsePseudonymCounter e.pseudonym with
         | some (t, some n) =>
           if t = T then max ((dGet v.counters T).getD 0) n.toNat
           else (dGet v.counters T).getD 0
         | _ => (dGet v.counters T).getD 0) := by
      unfold loadStep
      cases hp : parsePseudonymCounter e.pseudonym with
      | none => rfl
      | some pr =>
        cases pr with
        | mk t no =>
          cases no with
          | none => rfl
          | some n =>
            dsimp only
            by_cases ht : t = T
            · subst ht
              by_cases hgt : n > ((dGet v.counters t).getD 0 : Nat)
              · rw [if_pos hgt]
                show (dGet (dSet v.counters t n.toNat) t).getD 0 = _
                rw [dGet_dSet_self, if_pos rfl]
                show n.toNat = _
                exact (max_eq_right (by omega)).symm
              · rw [if_neg hgt]
                show (dGet v.counters t).getD 0 = _
                rw [if_pos rfl]
                exact (max_eq_left (by omega)).symm
            · by_cases hgt : n > ((dGet v.counters t).getD 0 : Nat)
              · rw [if_pos hgt]
                show (dGet (dSet v.counters t n.toNat) T).getD 0 = _
                rw [dGet_dSet_ne _ _ _ _ (Ne.symm ht), if_neg ht]
              · rw [if_neg hgt]
                show (dGet v.counters T).getD 0 = _
                rw [if_neg ht]
    rw [hstep]
    rfl

/-- The running maximum dominates its start. -/
theorem maxParsedFrom_le_init (T : String) :
    ∀ (entries : List VaultEntry) (a : Nat), a ≤ maxParsedFrom T a entries := by
  intro entries
  induction entries with
  | nil => intro a; exact Nat.le_refl a
  | cons e rest ih =>
    intro a
    have hstep : a ≤ (match parsePseudonymCounter e.pseudonym with
        | some (t, some n) => if t = T then max a n.toNat else a
        | _ => a) := by
      cases parsePseudonymCounter e.pseudonym with
      | none => exact Nat.le_refl a
      | some pr =>
        cases pr with
        | mk t no =>
          cases no with
          | none => exact Nat.le_refl a
          | some n =>
            dsimp only
            by_cases ht : t = T
            · rw [if_pos ht]; exact Nat.le_max_left _ _
            · rw [if_neg ht]
    exact le_trans hstep (ih _)

/-- The running maximum dominates every parsed member of its type. -/
theorem maxParsedFrom_ge_mem (T : String) :
    ∀ (entries : List VaultEntry) (a : Nat) (e : VaultEntry) (n : Int),
      e ∈ entries → parsePseudonymCounter e.pseudonym = some (T, some n) →
      n.toNat ≤ maxParsedFrom T a entries := by
  intro entries
  induction entries with
  | nil => intro _ _ _ h; cases h
  | cons q rest ih =>
    intro a e n he hp
    rcases List.mem_cons.mp he with rfl | he'
    · have hstep : maxParsedFrom T a (e :: rest) =
          maxParsedFrom T (max a n.toNat) rest := by
        show List.foldl _ _ _ = _
        rw [List.foldl_cons, hp]
        simp [maxParsedFrom]
      rw [hstep]
      exact le_trans (Nat.le_max_right _ _) (maxParsedFrom_le_init T rest _)
    · exact ih _ e n he' hp

/-- Under the witnessed decomposition, the parsed maximum equals the
claim-level maximum of loaded `N`s. -/
theorem maxParsed_eq_maxLoaded (T : String) (W : VaultEntry → String × Nat) :
    ∀ (entries : List VaultEntry) (a : Nat),
      (∀ e ∈ entries, goodTypeB (W e).1 = true ∧
        e.pseudonym = mkPseudonym (W e).1 (W e).2) →
      maxParsedFrom T a entries = maxLoadedNFrom T W a entries := by
  intro entries
  induction entries with
  | nil => intro a _; rfl
  | cons e rest ih =>
    intro a hwf
    obtain ⟨hg, hpe⟩ := hwf e (List.mem_cons_self _ _)
    have hp : parsePseudonymCounter e.pseudonym =
        some ((W e).1, some ((W e).2 : Int)) := by
      rw [hpe]
      exact parse_mk _ _ hg
    show List.foldl _ _ _ = List.foldl _ _ _
    rw [List.foldl_cons, List.foldl_cons, hp]
    simp only [Int.toNat_natCast]
    exact ih _ (fun e' he' => hwf e' (List.mem_cons_of_mem _ he'))

/-- C5 counterexample: two loaded entries carrying the same real value —
`get_pseudonym` returns the LAST-seen entry's pseudonym `[PERSON_2]`, not
the first-seen `[PERSON_1]` the claim states. -/
theorem load_entries_first_seen_counterexample :
    ((Vault.new [] []).load_entries
      [⟨"PERSON", "[PERSON_1]", "John", []⟩,
       ⟨"PERSON", "[PERSON_2]", "John", []⟩]).get_pseudonym "John" =
      some "[PERSON_2]" := by decide

/-- C5 amended: after `load_entries` on a fresh vault, (a) a real value
loaded under several pseudonyms resolves to the LAST-seen entry's
pseudonym (when no alias shadows it); (b) each type's counter equals the
maximum `N` among loaded pseudonyms of that type, so the next
`add_entity` of a fresh real value returns `[TYPE_(maxN+1)]`, which
collides with no loaded pseudonym. -/
theorem load_entries_counters_and_duplicates (s k : List Nat)
    (entries : List VaultEntry) (W : VaultEntry → String × Nat)
    (T r newVal : String)
    (hwf : ∀ e ∈ entries, goodTypeB (W e).1 = true ∧
      e.pseudonym = mkPseudonym (W e).1 (W e).2)
    (hT : goodTypeB T = true) :
    ((∀ e ∈ entries, r ∉ e.aliases) →
      ∀ eLast, entries.reverse.find? (fun e => e.real_value == r) = some eLast →
        ((Vault.new s k).load_entries entries).get_pseudonym r =
          some eLast.pseudonym) ∧
    ((dGet ((Vault.new s k).load_entries entries).counters T).getD 0 =
      maxLoadedNFrom T W 0 entries) ∧
    (dGet ((Vault.new s k).load_entries entries).forward newVal = none →
      (((Vault.new s k).load_entries entries).add_entity newVal T).1 =
        mkPseudonym T (maxLoadedNFrom T W 0 entries + 1) ∧
      ∀ e ∈ entries,
        e.pseudonym ≠ mkPseudonym T (maxLoadedNFrom T W 0 entries + 1)) := by
  have hcount : (dGet ((Vault.new s k).load_entries entries).counters T).getD 0 =
      maxLoadedNFrom T W 0 entries := by
    show (dGet (entries.foldl loadStep (Vault.new s k)).counters T).getD 0 = _
    rw [load_counters entries (Vault.new s k) T]
    show maxParsedFrom T 0 entries = _
    exact maxParsed_eq_maxLoaded T W entries 0 hwf
  refine ⟨?_, hcount, ?_⟩
  · intro hal eLast hfind
    show dGet (entries.foldl loadStep (Vault.new s k)).forward r = _
    rw [load_forward entries (Vault.new s k) r hal, hfind]
  · intro hfresh
    constructor
    · unfold Vault.add_entity
      rw [show dGet ((Vault.new s k).load_entries entries).forward newVal = none
        from hfresh]
      dsimp only
      rw [hcount]
    · intro e he heq
      have hp : parsePseudonymCounter e.pseudonym =
          some (T, some ((maxLoadedNFrom T W 0 entries + 1 : Nat) : Int)) := by
        rw [heq]
        exact parse_mk _ _ hT
      have := maxParsedFrom_ge_mem T entries 0 e _ he hp
      rw [maxParsed_eq_maxLoaded T W entries 0 hwf] at this
      simp only [Int.toNat_natCast] at this
      omega

/-- Witness for C5 amended: duplicate real value "John" under
`[PERSON_1]` then `[PERSON_2]`; the forward map keeps `[PERSON_2]`, the
PERSON counter is 2, and a fresh value gets `[PERSON_3]`. -/
theorem load_entries_counters_and_duplicates_witness :
    (((Vault.new [] []).load_entries
      [⟨"PERSON", "[PERSON_1]", "John", []⟩,
       ⟨"PERSON", "[PERSON_2]", "John", []⟩]).get_pseudonym "John" =
      some "[PERSON_2]") ∧
    ((dGet ((Vault.new [] []).load_entries
      [⟨"PERSON", "[PERSON_1]", "John", []⟩,
       ⟨"PERSON", "[PERSON_2]", "John", []⟩]).counters "PERSON").getD 0 = 2) ∧
    ((((Vault.new [] []).load_entries
      [⟨"PERSON", "[PERSON_1]", "John", []⟩,
       ⟨"PERSON", "[PERSON_2]", "John", []⟩]).add_entity "Alice" "PERSON").1 =
      "[PERSON_3]") := by
  have h := load_entries_counters_and_duplicates [] []
    [⟨"PERSON", "[PERSON_1]", "John", []⟩,
     ⟨"PERSON", "[PERSON_2]", "John", []⟩]
    (fun e => ("PERSON", if e.pseudonym = "[PERSON_1]" then 1 else 2))
    "PERSON" "John" "Alice" (by decide) (by decide)
  refine ⟨?_, ?_, ?_⟩
  · exact h.1 (by decide) ⟨"PERSON", "[PERSON_2]", "John", []⟩ (by decide)
  · rw [h.2.1]; decide
  · rw [(h.2.2 (by decide)).1]; decide

end ClaimTheorems
